import Mathlib

/-! # node-sqlite3 `Database`: scheduler, lifecycle handlers, bridges and `Configure`

A shallow embedding of `src/database.cc`.  The coordinating thread is the only
one that touches `open`, `locked`, `pending`, `serialize` and the queue, so the
member functions are modelled as pure functions from a `Database` value to the
new `Database` value together with the list of observable events produced, in
program order.

* `callback(baton)` (the hand-off of a request's operation) is recorded as an
  `Event.invoke` carrying the call and the state at the moment of invocation,
  followed by whatever the operation's own body does on the coordinating thread.
* JavaScript completion callbacks (`TRY_CATCH_CALL`) and `EMIT_EVENT` are
  recorded as events; the scope callback of `Serialize` / `Parallelize` is an
  arbitrary state transformer.
* JavaScript code runs in the middle of `Process`: the callback of `Work_Wait`,
  and the callbacks and the "error" listeners of the closed branch.  Recording
  them as events is exact when they do not call back into the database object
  (`quiet_Process`); the section `Reentrant` has `Work_Wait`, the drain loop,
  `Process`, `Serialize` and `Parallelize` with callbacks and listeners that
  are arbitrary code.
* `assert` lines are transcribed as the predicate `Work_asserts`; they are
  checks, not effects.
-/

namespace node_sqlite3

/-- Engine status code for success. -/
def SQLITE_OK : Int := 0

/-- Engine status code carried by the "closed" errors. -/
def SQLITE_MISUSE : Int := 21

/-- The error object built by `EXCEPTION(message, errno, name)`. -/
structure Exception where
  message : String
  errno : Int
deriving DecidableEq, Repr

/-- The three engine hook kinds that are bridged to the coordinating thread. -/
inductive Hook where
  | trace
  | profile
  | update
deriving DecidableEq, Repr

/-- The operations (`Work_Callback` values) that reach `Database::Schedule`.
`Statement_Work_Begin` stands for the statement operations of `statement.cc`. -/
inductive Work_Callback where
  | Work_BeginClose
  | Work_BeginExec
  | Work_Wait
  | Work_BeginLoadExtension
  | RegisterTraceCallback
  | RegisterProfileCallback
  | SetBusyTimeout
  | Statement_Work_Begin
deriving DecidableEq, Repr

/-- The execution context of a request: `id` identifies the baton, `callback`
says whether `baton->callback` is a function, `status` and `message` are the
result slots filled by the blocking body. -/
structure Baton where
  id : Nat
  callback : Bool
  status : Int
  message : String
deriving DecidableEq, Repr

/-- A queued request: `Call(callback, baton, exclusive)`. -/
structure Call where
  callback : Work_Callback
  baton : Baton
  exclusive : Bool
deriving DecidableEq, Repr

/-- The fields of `Database` read or written by `database.cc`.  `open_` is the
member `open`; the three bridge slots hold `true` when the pointer is not
`NULL`. -/
structure Database where
  open_ : Bool
  locked : Bool
  pending : Nat
  serialize : Bool
  queue : List Call
  debug_trace : Bool
  debug_profile : Bool
  update_event : Bool
deriving DecidableEq, Repr

/-- Observable events, in program order on the coordinating thread. -/
inductive Event where
  /-- The hand-off `callback(baton)` with the state at that moment. -/
  | invoke (call : Call) (now : Database)
  /-- A JavaScript callback called through `TRY_CATCH_CALL` with one argument
  (`none` is `null`). -/
  | call (baton : Baton) (arg : Option Exception)
  /-- An event emitted on the database object through `EMIT_EVENT`. -/
  | emit (name : String) (arg : Option Exception)
  /-- A bridge object was created: `new AsyncTrace` and its siblings. -/
  | bridge_new (kind : Hook)
  /-- A bridge was shut down by `finish()`. -/
  | bridge_finish (kind : Hook)
  /-- The engine hook was installed (`true`) or removed (`false`). -/
  | hook (kind : Hook) (installed : Bool)
  /-- The call `sqlite3_busy_timeout(handle, ms)`. -/
  | busy_timeout (ms : Int)
  /-- A completion handler ran for the request of this baton. -/
  | complete (baton : Baton)
deriving DecidableEq, Repr

/-- The result of a member function: the new state and the events produced. -/
abbrev Outcome := Database × List Event

/-- The initial state set up by the constructor `Database()`. -/
def Database.fresh : Database :=
  { open_ := false, locked := false, pending := 0, serialize := false, queue := [],
    debug_trace := false, debug_profile := false, update_event := false }

/-- `Database::RemoveCallbacks` (lines 815-823). -/
def RemoveCallbacks (db : Database) : Outcome :=
  let r1 : Outcome :=
    if db.debug_trace then ({ db with debug_trace := false }, [Event.bridge_finish Hook.trace])
    else (db, [])
  let r2 : Outcome :=
    if r1.1.debug_profile then
      ({ r1.1 with debug_profile := false }, [Event.bridge_finish Hook.profile])
    else (r1.1, [])
  (r2.1, r1.2 ++ r2.2)

/-- `Database::RegisterTraceCallback` (lines 373-391). -/
def RegisterTraceCallback (db : Database) : Outcome :=
  if db.debug_trace = false then
    ({ db with debug_trace := true }, [Event.bridge_new Hook.trace, Event.hook Hook.trace true])
  else
    ({ db with debug_trace := false },
      [Event.hook Hook.trace false, Event.bridge_finish Hook.trace])

/-- `Database::RegisterProfileCallback` (lines 410-428). -/
def RegisterProfileCallback (db : Database) : Outcome :=
  if db.debug_profile = false then
    ({ db with debug_profile := true },
      [Event.bridge_new Hook.profile, Event.hook Hook.profile true])
  else
    ({ db with debug_profile := false },
      [Event.hook Hook.profile false, Event.bridge_finish Hook.profile])

/-- `Database::RegisterUpdateCallback` (lines 450-468). -/
def RegisterUpdateCallback (db : Database) : Outcome :=
  if db.update_event = false then
    ({ db with update_event := true },
      [Event.bridge_new Hook.update, Event.hook Hook.update true])
  else
    ({ db with update_event := false },
      [Event.hook Hook.update false, Event.bridge_finish Hook.update])

/-- `Database::SetBusyTimeout` (lines 363-371). -/
def SetBusyTimeout (db : Database) (baton : Baton) : Outcome :=
  (db, [Event.busy_timeout baton.status])

/-- Modelled from the spec: the statement operations of `statement.cc`, which
is not among the sources.  The spec's `pending` is the "count of non-exclusive
requests currently dispatched and not yet completed": beginning such an
operation counts it in `pending`. -/
def Statement_Work_Begin (db : Database) : Outcome :=
  ({ db with pending := db.pending + 1 }, [])

/-- `Database::Work_Wait` (lines 724-741), with `Database::Process` passed in as
`process`, for a callback that does not call back into the database object:
the call of line 735 is recorded as an event.  `Reentrant.Work_Wait` is the
form for arbitrary callbacks. -/
def Work_Wait (process : Database → Outcome) (db : Database) (baton : Baton) : Outcome :=
  let r := process db
  (r.1, (if baton.callback then [Event.call baton none] else []) ++ r.2)

/-- The body of the operation `callback(baton)` on the coordinating thread.
`Work_BeginExec` and `Work_BeginLoadExtension` only queue their blocking body
on the worker pool; `Work_BeginClose` first removes the bridges. -/
def runCallback (process : Database → Outcome) (call : Call) (db : Database) : Outcome :=
  match call.callback with
  | Work_Callback.Work_BeginClose => RemoveCallbacks db
  | Work_Callback.Work_BeginExec => (db, [])
  | Work_Callback.Work_Wait => Work_Wait process db call.baton
  | Work_Callback.Work_BeginLoadExtension => (db, [])
  | Work_Callback.RegisterTraceCallback => RegisterTraceCallback db
  | Work_Callback.RegisterProfileCallback => RegisterProfileCallback db
  | Work_Callback.SetBusyTimeout => SetBusyTimeout db call.baton
  | Work_Callback.Statement_Work_Begin => Statement_Work_Begin db

/-- The `assert` lines on `locked`, `open` and `pending == 0` at the top of the
operations (lines 228-231, 509-512, 727-730, 757-760, and `assert(open)` of the
configuration operations, lines 364, 374, 411); the statement operations are
not among the sources and contribute no check. -/
def Work_asserts (callback : Work_Callback) (db : Database) : Bool :=
  match callback with
  | Work_Callback.Work_BeginClose => db.locked && db.open_ && db.pending == 0
  | Work_Callback.Work_BeginExec => db.locked && db.open_ && db.pending == 0
  | Work_Callback.Work_Wait => db.locked && db.open_ && db.pending == 0
  | Work_Callback.Work_BeginLoadExtension => db.locked && db.open_ && db.pending == 0
  | Work_Callback.RegisterTraceCallback => db.open_
  | Work_Callback.RegisterProfileCallback => db.open_
  | Work_Callback.SetBusyTimeout => db.open_
  | Work_Callback.Statement_Work_Begin => true

/-- The error built at the top of the closed branch of `Process` (line 44). -/
def closedHandleException : Exception :=
  { message := "Database handle is closed", errno := SQLITE_MISUSE }

/-- The error built in the closed branch of `Schedule` (line 91). -/
def closedException : Exception :=
  { message := "Database is closed", errno := SQLITE_MISUSE }

/-- The loop of lines 49-61 for callbacks that do not call back into the
database object: every queued call is popped; the ones whose baton has a
callback get the error, and `called` records whether any did.
`Reentrant.drainLoop` is the form for arbitrary callbacks, where the order of
the callback (line 53) and `queue.pop()` (line 56) matters. -/
def drainLoop : List Call → Bool → List Event × Bool
  | [], called => ([], called)
  | call :: rest, called =>
    if call.baton.callback then
      let r := drainLoop rest true
      (Event.call call.baton (some closedHandleException) :: r.1, r.2)
    else drainLoop rest called

/-- The closed branch of `Process` (lines 43-70). -/
def closedDrain (db : Database) : Outcome :=
  let r := drainLoop db.queue false
  ({ db with queue := [] },
    r.1 ++ (if !r.2 then [Event.emit "error" (some closedHandleException)] else []))

/-- `Database::Process` (lines 40-86) around a given dispatch loop. -/
def ProcessWith (loop : Database → Outcome) (db : Database) : Outcome :=
  if !db.open_ && db.locked && !db.queue.isEmpty then closedDrain db
  else loop db

/-- The dispatch loop of lines 72-85.  Every iteration pops one call, so a
budget above the queue length is never used up (`dispatchLoop_fuel`). -/
def dispatchLoop : Nat → Database → Outcome
  | 0, db => (db, [])
  | fuel + 1, db =>
    if db.open_ && (!db.locked || db.pending == 0) && !db.queue.isEmpty then
      match db.queue with
      | [] => (db, [])
      | call :: rest =>
        if call.exclusive && db.pending > 0 then (db, [])
        else
          let db1 := { db with queue := rest, locked := call.exclusive }
          let r := runCallback (ProcessWith (dispatchLoop fuel)) call db1
          if r.1.locked then (r.1, Event.invoke call db1 :: r.2)
          else
            let r2 := dispatchLoop fuel r.1
            (r2.1, Event.invoke call db1 :: (r.2 ++ r2.2))
    else (db, [])

/-- `Database::Process` (lines 40-86). -/
def Process (db : Database) : Outcome :=
  ProcessWith (dispatchLoop (db.queue.length + 1)) db

/-- `Database::Schedule` (lines 88-111). -/
def Schedule (db : Database) (callback : Work_Callback) (baton : Baton) (exclusive : Bool) :
    Outcome :=
  if !db.open_ && db.locked then
    if baton.callback then (db, [Event.call baton (some closedException)])
    else (db, [Event.emit "error" (some closedException)])
  else if !db.open_ || ((db.locked || exclusive || db.serialize) && db.pending > 0) then
    ({ db with queue := db.queue ++ [{ callback := callback, baton := baton,
                                       exclusive := exclusive || db.serialize }] }, [])
  else
    let call : Call := { callback := callback, baton := baton, exclusive := exclusive }
    let db1 := { db with locked := exclusive }
    let r := runCallback Process call db1
    (r.1, Event.invoke call db1 :: r.2)

/-- The error built by `EXCEPTION(baton->message, baton->status, exception)` in
the completion handlers. -/
def batonException (baton : Baton) : Exception :=
  { message := baton.message, errno := baton.status }

/-- `Database::Work_AfterClose` (lines 253-288). -/
def Work_AfterClose (db : Database) (baton : Baton) : Outcome :=
  let failed : Bool := baton.status != SQLITE_OK
  let argv0 : Option Exception := if failed then some (batonException baton) else none
  let db1 : Database := if failed then db else { db with open_ := false }
  let fired : List Event :=
    if baton.callback then [Event.call baton argv0]
    else if db1.open_ then [Event.emit "error" argv0]
    else []
  if !db1.open_ then
    let r := Process db1
    (r.1, Event.complete baton :: (fired ++ Event.emit "close" none :: r.2))
  else (db1, Event.complete baton :: fired)

/-- The callback part shared by `Work_AfterExec` (lines 541-558) and
`Work_AfterLoadExtension` (lines 791-808). -/
def fireCompletion (baton : Baton) : List Event :=
  if baton.status != SQLITE_OK then
    if baton.callback then [Event.call baton (some (batonException baton))]
    else [Event.emit "error" (some (batonException baton))]
  else if baton.callback then [Event.call baton none]
  else []

/-- `Database::Work_AfterExec` (lines 536-563). -/
def Work_AfterExec (db : Database) (baton : Baton) : Outcome :=
  let r := Process db
  (r.1, Event.complete baton :: (fireCompletion baton ++ r.2))

/-- `Database::Work_AfterLoadExtension` (lines 787-813). -/
def Work_AfterLoadExtension (db : Database) (baton : Baton) : Outcome :=
  let r := Process db
  (r.1, Event.complete baton :: (fireCompletion baton ++ r.2))

/-- Modelled from the spec: completion of a statement operation
(`statement.cc` is not among the sources).  The spec's `onCompletion`
"decrements `pending` if the request was non-exclusive ... then calls
`drain()`". -/
def Statement_Work_After (db : Database) (baton : Baton) : Outcome :=
  let r := Process { db with pending := db.pending - 1 }
  (r.1, Event.complete baton :: r.2)

/-- `Database::Serialize` (lines 290-306); `callback` is the optional scope. -/
def Serialize (db : Database) (callback : Option (Database → Outcome)) : Outcome :=
  let before := db.serialize
  let db1 := { db with serialize := true }
  match callback with
  | some scope =>
    let s := scope db1
    let r := Process { s.1 with serialize := before }
    (r.1, s.2 ++ r.2)
  | none => Process db1

/-- `Database::Parallelize` (lines 308-324); `callback` is the optional scope. -/
def Parallelize (db : Database) (callback : Option (Database → Outcome)) : Outcome :=
  let before := db.serialize
  let db1 := { db with serialize := false }
  match callback with
  | some scope =>
    let s := scope db1
    let r := Process { s.1 with serialize := before }
    (r.1, s.2 ++ r.2)
  | none => Process db1

/-! ## `Configure` -/

/-- Operations whose blocking body runs on the worker pool and whose completion
handler runs later on the coordinating thread. -/
def isAsync : Work_Callback → Bool
  | Work_Callback.Work_BeginClose => true
  | Work_Callback.Work_BeginExec => true
  | Work_Callback.Work_BeginLoadExtension => true
  | Work_Callback.Statement_Work_Begin => true
  | _ => false

/-- The requests outstanding after one more event: an invoked asynchronous
operation is outstanding until the completion handler of its baton runs. -/
def outstandingStep (out : List Call) : Event → List Call
  | Event.invoke call _ => if isAsync call.callback then out ++ [call] else out
  | Event.complete baton => out.eraseP (fun c => c.baton.id == baton.id)
  | _ => out

/-- The requests outstanding at the end of a log. -/
def outstanding (log : List Event) : List Call :=
  log.foldl outstandingStep []

/-- Whether the request `(callback, baton)` is outstanding at the end of a log. -/
def isOutstanding (log : List Event) (callback : Work_Callback) (baton : Baton) : Bool :=
  match (outstanding log).find? (fun c => c.baton.id == baton.id) with
  | some c => c.callback == callback
  | none => false

/-- A program of calls made on the coordinating thread: submissions, explicit
`Process` calls, serialize/parallelize with or without a scope, and completion
handlers. -/
inductive Api where
  | skip
  | seq (first second : Api)
  | schedule (callback : Work_Callback) (baton : Baton) (exclusive : Bool)
  | process
  | serialize
  | serializeScope (scope : Api)
  | parallelize
  | parallelizeScope (scope : Api)
  | afterExec (baton : Baton)
  | afterClose (baton : Baton)
  | afterLoadExtension (baton : Baton)
  | afterStatement (baton : Baton)
deriving Repr

/-- Runs a program from the state `db`, `hist` being the events produced so
far.  The worker pool runs a completion handler only for a request it was
given, so a completion of a request that is not outstanding is not a step. -/
def Api.run : Api → List Event → Database → Outcome
  | Api.skip, _, db => (db, [])
  | Api.seq first second, hist, db =>
    let r1 := first.run hist db
    let r2 := second.run (hist ++ r1.2) r1.1
    (r2.1, r1.2 ++ r2.2)
  | Api.schedule callback baton exclusive, _, db => Schedule db callback baton exclusive
  | Api.process, _, db => Process db
  | Api.serialize, _, db => Serialize db none
  | Api.serializeScope scope, hist, db => Serialize db (some (scope.run hist))
  | Api.parallelize, _, db => Parallelize db none
  | Api.parallelizeScope scope, hist, db => Parallelize db (some (scope.run hist))
  | Api.afterExec baton, hist, db =>
    if isOutstanding hist Work_Callback.Work_BeginExec baton then Work_AfterExec db baton
    else (db, [])
  | Api.afterClose baton, hist, db =>
    if isOutstanding hist Work_Callback.Work_BeginClose baton then Work_AfterClose db baton
    else (db, [])
  | Api.afterLoadExtension baton, hist, db =>
    if isOutstanding hist Work_Callback.Work_BeginLoadExtension baton then
      Work_AfterLoadExtension db baton
    else (db, [])
  | Api.afterStatement baton, hist, db =>
    if isOutstanding hist Work_Callback.Statement_Work_Begin baton then
      Statement_Work_After db baton
    else (db, [])

/-! ## Callbacks that call back into the database

`Work_Wait` (line 735) and the closed branch of `Process` (lines 53 and 67)
run JavaScript code in the middle of their work: a callback, or the listeners
of the "error" event.  The definitions above record such a call as an event,
which is exact as long as that code does not call back into the database
object.  The definitions of this section take what the JavaScript code does as
a parameter, so that it may submit requests or call `serialize`, `parallelize`
or `configure` while `Process` is running. -/

namespace Reentrant

/-- What the JavaScript code registered with the database object does on the
coordinating thread.  `call baton arg db` is the outcome of calling the
callback of `baton` with the argument `arg` in the state `db`
(`TRY_CATCH_CALL`); `emit name arg db` is the outcome of the listeners of the
event `name` (`EMIT_EVENT`).  Both are arbitrary code. -/
structure Callbacks where
  call : Baton → Option Exception → Database → Outcome
  emit : String → Option Exception → Database → Outcome

/-- JavaScript code that never calls back into the database object. -/
def Quiet (js : Callbacks) : Prop :=
  (∀ baton arg db, js.call baton arg db = (db, [])) ∧
    ∀ name arg db, js.emit name arg db = (db, [])

/-- Why a run gives no outcome: `queue.pop()` was reached with an empty queue,
which `std::queue` leaves undefined, or the budget of loop entries was used
up. -/
inductive Halt where
  | undefined
  | exhausted
deriving DecidableEq, Repr

/-- The result of a run: an outcome, or the reason there is none. -/
abbrev Run := Except Halt Outcome

/-- `Database::Work_Wait` (lines 724-741): the callback runs first, then
`Process`, passed in as `process`. -/
def Work_Wait (js : Callbacks) (process : Database → Run) (db : Database) (baton : Baton) :
    Run :=
  if baton.callback then
    match process (js.call baton none db).1 with
    | Except.ok r =>
      Except.ok (r.1, Event.call baton none :: ((js.call baton none db).2 ++ r.2))
    | Except.error h => Except.error h
  else process db

/-- The body of the operation `callback(baton)` on the coordinating thread. -/
def runCallback (js : Callbacks) (process : Database → Run) (call : Call) (db : Database) :
    Run :=
  match call.callback with
  | Work_Callback.Work_BeginClose => Except.ok (RemoveCallbacks db)
  | Work_Callback.Work_BeginExec => Except.ok (db, [])
  | Work_Callback.Work_Wait => Work_Wait js process db call.baton
  | Work_Callback.Work_BeginLoadExtension => Except.ok (db, [])
  | Work_Callback.RegisterTraceCallback => Except.ok (RegisterTraceCallback db)
  | Work_Callback.RegisterProfileCallback => Except.ok (RegisterProfileCallback db)
  | Work_Callback.SetBusyTimeout => Except.ok (SetBusyTimeout db call.baton)
  | Work_Callback.Statement_Work_Begin => Except.ok (Statement_Work_Begin db)

/-- The loop of lines 49-61.  The callback of the call at the front runs while
the call is still in the queue (line 53); `queue.pop()` (line 56) then removes
whatever is at the front of the queue the callback left. -/
def drainLoop (js : Callbacks) : Nat → Database → Bool → Except Halt (Outcome × Bool)
  | 0, _, _ => Except.error Halt.exhausted
  | fuel + 1, db, called =>
    match db.queue with
    | [] => Except.ok ((db, []), called)
    | call :: rest =>
      if call.baton.callback then
        match (js.call call.baton (some closedHandleException) db).1.queue with
        | [] => Except.error Halt.undefined
        | _ :: left =>
          match drainLoop js fuel
              { (js.call call.baton (some closedHandleException) db).1 with queue := left } true with
          | Except.ok r =>
            Except.ok ((r.1.1, Event.call call.baton (some closedHandleException) ::
              ((js.call call.baton (some closedHandleException) db).2 ++ r.1.2)), r.2)
          | Except.error h => Except.error h
      else drainLoop js fuel { db with queue := rest } called

/-- The closed branch of `Process` (lines 43-70): the loop, and the "error"
event when no callback was called, whose listeners run last. -/
def closedDrain (js : Callbacks) (fuel : Nat) (db : Database) : Run :=
  match drainLoop js fuel db false with
  | Except.ok r =>
    if !r.2 then
      Except.ok ((js.emit "error" (some closedHandleException) r.1.1).1,
        r.1.2 ++ Event.emit "error" (some closedHandleException) ::
          (js.emit "error" (some closedHandleException) r.1.1).2)
    else Except.ok r.1
  | Except.error h => Except.error h

/-- `Database::Process` (lines 40-86) around a given dispatch loop. -/
def ProcessWith (js : Callbacks) (fuel : Nat) (loop : Database → Run) (db : Database) : Run :=
  if !db.open_ && db.locked && !db.queue.isEmpty then closedDrain js fuel db
  else loop db

/-- The dispatch loop of lines 72-85; every entry of the loop takes one unit of
the budget. -/
def dispatchLoop (js : Callbacks) : Nat → Database → Run
  | 0, _ => Except.error Halt.exhausted
  | fuel + 1, db =>
    if db.open_ && (!db.locked || db.pending == 0) && !db.queue.isEmpty then
      match db.queue with
      | [] => Except.ok (db, [])
      | call :: rest =>
        if call.exclusive && db.pending > 0 then Except.ok (db, [])
        else
          match runCallback js (ProcessWith js fuel (dispatchLoop js fuel)) call
              { db with queue := rest, locked := call.exclusive } with
          | Except.ok r =>
            if r.1.locked then
              Except.ok (r.1,
                Event.invoke call { db with queue := rest, locked := call.exclusive } :: r.2)
            else
              match dispatchLoop js fuel r.1 with
              | Except.ok r2 =>
                Except.ok (r2.1,
                  Event.invoke call { db with queue := rest, locked := call.exclusive } ::
                    (r.2 ++ r2.2))
              | Except.error h => Except.error h
          | Except.error h => Except.error h
    else Except.ok (db, [])

/-- `Database::Process` (lines 40-86) with a budget of loop entries. -/
def Process (js : Callbacks) (fuel : Nat) (db : Database) : Run :=
  ProcessWith js fuel (dispatchLoop js fuel) db

/-- `Database::Serialize` (lines 290-306); `callback` is the optional scope. -/
def Serialize (js : Callbacks) (fuel : Nat) (db : Database)
    (callback : Option (Database → Outcome)) : Run :=
  match callback with
  | some scope =>
    match Process js fuel
        { (scope { db with serialize := true }).1 with serialize := db.serialize } with
    | Except.ok r => Except.ok (r.1, (scope { db with serialize := true }).2 ++ r.2)
    | Except.error h => Except.error h
  | none => Process js fuel { db with serialize := true }

/-- `Database::Parallelize` (lines 308-324); `callback` is the optional scope. -/
def Parallelize (js : Callbacks) (fuel : Nat) (db : Database)
    (callback : Option (Database → Outcome)) : Run :=
  match callback with
  | some scope =>
    match Process js fuel
        { (scope { db with serialize := false }).1 with serialize := db.serialize } with
    | Except.ok r => Except.ok (r.1, (scope { db with serialize := false }).2 ++ r.2)
    | Except.error h => Except.error h
  | none => Process js fuel { db with serialize := false }

end Reentrant

/-! ## Auxiliary definitions used in the statements -/

/-- The state right after `queue.pop(); locked = call->exclusive;` (lines 79-80). -/
def popped (db : Database) (call : Call) (rest : List Call) : Database :=
  { db with queue := rest, locked := call.exclusive }

/-- The part of the state no operation and no dispatch touches: `open`,
`serialize`, and the queue only ever loses calls from its front. -/
structure Frame (db db' : Database) : Prop where
  open_eq : db'.open_ = db.open_
  serialize_eq : db'.serialize = db.serialize
  queue_suffix : db'.queue <:+ db.queue

/-- What holds at a hand-off: the connection is open, `locked` is the flag of
the call, and a call whose flag is set finds `pending == 0`. -/
def Event.gated : Event → Prop
  | Event.invoke c now =>
    now.open_ = true ∧ now.locked = c.exclusive ∧ (c.exclusive = true → now.pending = 0)
  | _ => True

/-- Whether an event is a hand-off. -/
def Event.isInvoke : Event → Bool
  | Event.invoke _ _ => true
  | _ => false

/-! ### Concrete requests and states used to exercise the theorems -/

/-- A request context with a callback. -/
def batonA : Baton := { id := 1, callback := true, status := 0, message := "" }

/-- A second request context with a callback. -/
def batonB : Baton := { id := 2, callback := true, status := 0, message := "" }

/-- A request context without a callback. -/
def batonN : Baton := { id := 3, callback := false, status := 0, message := "" }

/-- An open idle connection: nothing outstanding, nothing queued. -/
def idle : Database := { Database.fresh with open_ := true }

/-- An exclusive `exec` request as it sits in the queue. -/
def execA : Call :=
  { callback := Work_Callback.Work_BeginExec, baton := batonA, exclusive := true }

/-- A second exclusive `exec` request. -/
def execB : Call :=
  { callback := Work_Callback.Work_BeginExec, baton := batonB, exclusive := true }

/-- An open connection holding one queued exclusive `exec`. -/
def idleQueuedExec : Database := { idle with queue := [execA] }

/-- A connection that was closed while two requests were still queued. -/
def closedQueued : Database :=
  { Database.fresh with locked := true, queue := [execA, { execB with baton := batonN }] }

/-- The program that submits the given requests one after the other. -/
def Api.submissions : List Call → Api
  | [] => Api.skip
  | c :: rest => Api.seq (Api.schedule c.callback c.baton c.exclusive) (Api.submissions rest)

/-- The hand-off made by the immediate path of `Schedule` (lines 108-109): the
state gets `locked := exclusive`, the operation of this request is invoked
once, and its body runs from that state. -/
def dispatchNow (db : Database) (callback : Work_Callback) (baton : Baton) (exclusive : Bool) :
    Outcome :=
  ((runCallback Process { callback := callback, baton := baton, exclusive := exclusive }
      { db with locked := exclusive }).1,
    Event.invoke { callback := callback, baton := baton, exclusive := exclusive }
        { db with locked := exclusive } ::
      (runCallback Process { callback := callback, baton := baton, exclusive := exclusive }
        { db with locked := exclusive }).2)

/-- The connection right after an exclusive request was handed over. -/
def lockedIdle : Database := { idle with locked := true }

/-- An open idle connection in serialize mode. -/
def serializedIdle : Database := { idle with serialize := true }

/-- A statement request (non-exclusive). -/
def stmtX : Call :=
  { callback := Work_Callback.Statement_Work_Begin, baton := { batonA with id := 11 },
    exclusive := false }

/-- A second statement request. -/
def stmtY : Call :=
  { callback := Work_Callback.Statement_Work_Begin, baton := { batonA with id := 12 },
    exclusive := false }

/-- A third statement request. -/
def stmtZ : Call :=
  { callback := Work_Callback.Statement_Work_Begin, baton := { batonA with id := 13 },
    exclusive := false }

/-- Two statement requests outstanding and an exclusive `exec` waiting at the
head of the queue. -/
def twoPendingExecQueued : Database := { idle with pending := 2, queue := [execA] }

/-- Whether a call is a statement request, the kind counted by `pending`. -/
def isStatement (c : Call) : Bool :=
  c.callback == Work_Callback.Statement_Work_Begin

/-- The number of statement requests among the outstanding ones. -/
def stmtCount (out : List Call) : Nat :=
  out.countP isStatement

/-- At a hand-off, `pending` is the number of outstanding statement requests. -/
def Event.tracked (out : List Call) : Event → Prop
  | Event.invoke _ now => now.pending = stmtCount out
  | _ => True

/-- Every hand-off of a log finds `pending` equal to the number of statement
requests outstanding at that instant, `out` being the requests outstanding at
the start of the log. -/
def LogTracked : List Call → List Event → Prop
  | _, [] => True
  | out, ev :: rest => ev.tracked out ∧ LogTracked (outstandingStep out ev) rest

/-- An outcome whose log is tracked and whose final `pending` is the number of
statement requests outstanding at the end. -/
def Tracked (out : List Call) (r : Outcome) : Prop :=
  LogTracked out r.2 ∧ r.1.pending = stmtCount (r.2.foldl outstandingStep out)

/-- Events that are neither a hand-off nor a completion. -/
def Event.inert : Event → Bool
  | Event.invoke _ _ => false
  | Event.complete _ => false
  | _ => true

/-- A statement and an exclusive `exec` are submitted, then the statement
completes. -/
def stmtThenExec : Api :=
  Api.seq (Api.submissions [stmtX, execA]) (Api.afterStatement stmtX.baton)

/-- The calls whose operation is handed over in a log, in order. -/
def invoked : List Event → List Call
  | [] => []
  | Event.invoke c _ :: rest => c :: invoked rest
  | _ :: rest => invoked rest

/-- The value of `locked` after a log: every hand-off sets it to the flag of the
call, nothing else writes it. -/
def lockedAfter (locked : Bool) (log : List Event) : Bool :=
  match (invoked log).getLast? with
  | some c => c.exclusive
  | none => locked

/-- A run consumed the queue in order: the calls handed over, followed by what
is still queued, are the queue it started from; and `locked` is the flag of the
last call handed over. -/
def Fifo (db : Database) (r : Outcome) : Prop :=
  invoked r.2 ++ r.1.queue = db.queue ∧ r.1.locked = lockedAfter db.locked r.2

/-- The ways the dispatch loop of `Process` ends on an open connection: the
queue is empty, `locked` holds with `pending > 0`, the head is exclusive while
`pending > 0`, or the last call handed over was exclusive. -/
def Stopped (r : Outcome) : Prop :=
  r.1.queue = [] ∨ (r.1.locked = true ∧ 0 < r.1.pending) ∨
    (∃ head rest, r.1.queue = head :: rest ∧ head.exclusive = true ∧ 0 < r.1.pending) ∨
    (∃ c, (invoked r.2).getLast? = some c ∧ c.exclusive = true)

/-- An open connection with `wait`, a statement and an `exec` queued. -/
def waitStmtExecQueued : Database :=
  { idle with locked := true,
              queue := [{ callback := Work_Callback.Work_Wait, baton := batonB, exclusive := true },
                        stmtX, execA] }

/-! ### Bridges -/

/-- The bridge slot of a hook kind: `debug_trace`, `debug_profile`,
`update_event`. -/
def slot : Hook → Database → Bool
  | Hook.trace, db => db.debug_trace
  | Hook.profile, db => db.debug_profile
  | Hook.update, db => db.update_event

/-- The state with the slot of one kind set and nothing else changed. -/
def setSlot : Hook → Bool → Database → Database
  | Hook.trace, b, db => { db with debug_trace := b }
  | Hook.profile, b, db => { db with debug_profile := b }
  | Hook.update, b, db => { db with update_event := b }

/-- The register operation of a hook kind. -/
def Register : Hook → Database → Outcome
  | Hook.trace, db => RegisterTraceCallback db
  | Hook.profile, db => RegisterProfileCallback db
  | Hook.update, db => RegisterUpdateCallback db

/-- The bridges of a kind created in a log minus those finished in it. -/
def liveBridges (kind : Hook) : List Event → Int
  | [] => 0
  | Event.bridge_new k :: rest => (if k = kind then 1 else 0) + liveBridges kind rest
  | Event.bridge_finish k :: rest => liveBridges kind rest - (if k = kind then 1 else 0)
  | _ :: rest => liveBridges kind rest

/-- The operations of `database.cc` that write a bridge slot. -/
inductive BridgeOp where
  | register (kind : Hook)
  | removeCallbacks
deriving DecidableEq, Repr

/-- One slot-writing operation. -/
def BridgeOp.run : BridgeOp → Database → Outcome
  | BridgeOp.register kind, db => Register kind db
  | BridgeOp.removeCallbacks, db => RemoveCallbacks db

/-- A sequence of slot-writing operations, one after the other. -/
def runBridgeOps : List BridgeOp → Database → Outcome
  | [], db => (db, [])
  | op :: rest, db =>
    let r1 := op.run db
    let r2 := runBridgeOps rest r1.1
    (r2.1, r1.2 ++ r2.2)

/-- `1` for an occupied slot, `0` for an empty one. -/
def occupied (b : Bool) : Int :=
  if b then 1 else 0

/-! ### Concrete callbacks and the states they are run on -/

/-- Listeners that do nothing. -/
def noListeners : String → Option Exception → Database → Outcome :=
  fun _ _ db => (db, [])

/-- JavaScript code that does nothing. -/
def jsNothing : Reentrant.Callbacks :=
  { call := fun _ _ db => (db, []), emit := noListeners }

/-- The callback of `batonA` calls `db.exec(...)` with the context `batonB`
(lines 495-506: one `Schedule` call with `exclusive = true`); the other
callbacks and the listeners do nothing. -/
def jsExec : Reentrant.Callbacks :=
  { call := fun baton _ db =>
      if baton.id == batonA.id then Schedule db Work_Callback.Work_BeginExec batonB true
      else (db, []),
    emit := noListeners }

/-- The callback of `batonA` calls `db.serialize()` without a scope when the
connection is in parallelize mode, and does nothing otherwise; the other
callbacks and the listeners do nothing. -/
def jsSerializeOnce : Reentrant.Callbacks :=
  { call := fun baton _ db =>
      if baton.id == batonA.id && !db.serialize then Serialize db none else (db, []),
    emit := noListeners }

/-- A `wait` request with a callback. -/
def waitA : Call :=
  { callback := Work_Callback.Work_Wait, baton := batonA, exclusive := true }

/-- An exclusive request outstanding and a `wait` with a callback queued. -/
def lockedWaitQueued : Database := { idle with locked := true, queue := [waitA] }

/-- A statement, an `exec` and a `wait` are submitted, then the statement
completes. -/
def reachLockedWaitQueued : Api :=
  Api.seq (Api.submissions [stmtX, execB, waitA]) (Api.afterStatement stmtX.baton)

/-- One iteration of the dispatch loop, spelled out: either the loop stops at
once, or it pops the head, runs its operation and goes on unless `locked`. -/
theorem dispatchLoop_cases (fuel : Nat) (db : Database) :
    dispatchLoop (fuel + 1) db = (db, []) ∨
    ∃ call rest, db.queue = call :: rest ∧ db.open_ = true ∧
      (db.locked = false ∨ db.pending = 0) ∧ (call.exclusive = true → db.pending = 0) ∧
      dispatchLoop (fuel + 1) db =
        if (runCallback (ProcessWith (dispatchLoop fuel)) call (popped db call rest)).1.locked
        then ((runCallback (ProcessWith (dispatchLoop fuel)) call (popped db call rest)).1,
          Event.invoke call (popped db call rest) ::
            (runCallback (ProcessWith (dispatchLoop fuel)) call (popped db call rest)).2)
        else ((dispatchLoop fuel
            (runCallback (ProcessWith (dispatchLoop fuel)) call (popped db call rest)).1).1,
          Event.invoke call (popped db call rest) ::
            ((runCallback (ProcessWith (dispatchLoop fuel)) call (popped db call rest)).2 ++
              (dispatchLoop fuel
                (runCallback (ProcessWith (dispatchLoop fuel)) call (popped db call rest)).1).2)) := by
  rw [dispatchLoop]
  split_ifs with hg
  · split
    · exact Or.inl rfl
    · rename_i call rest hq
      by_cases hb : (call.exclusive && decide (db.pending > 0)) = true
      · left
        simp [hb]
      · right
        refine ⟨call, rest, hq, ?_, ?_, ?_, ?_⟩
        · simp at hg; exact hg.1.1
        · simp at hg; exact hg.1.2
        · intro he
          simp [he] at hb
          exact hb
        · simp only [hb, popped, Bool.false_eq_true, if_false]
  · exact Or.inl rfl

/-! ## What every scheduler run leaves alone -/

theorem Frame.refl (db : Database) : Frame db db :=
  ⟨rfl, rfl, List.suffix_refl _⟩

theorem Frame.trans {a b c : Database} (h1 : Frame a b) (h2 : Frame b c) : Frame a c :=
  ⟨h2.open_eq.trans h1.open_eq, h2.serialize_eq.trans h1.serialize_eq,
    h2.queue_suffix.trans h1.queue_suffix⟩

theorem Frame.length_le {a b : Database} (h : Frame a b) : b.queue.length ≤ a.queue.length :=
  h.queue_suffix.length_le

theorem popped_frame (db : Database) (call : Call) (rest : List Call)
    (hq : db.queue = call :: rest) : Frame db (popped db call rest) :=
  ⟨rfl, rfl, by rw [hq]; exact List.suffix_cons _ _⟩

theorem runCallback_frame (process : Database → Outcome)
    (hp : ∀ d, Frame d (process d).1) (call : Call) (db : Database) :
    Frame db (runCallback process call db).1 := by
  unfold runCallback
  cases call.callback
  · simp only [RemoveCallbacks]
    split_ifs <;> exact ⟨rfl, rfl, List.suffix_refl _⟩
  · exact Frame.refl db
  · exact hp db
  · exact Frame.refl db
  · simp only [RegisterTraceCallback]
    split_ifs <;> exact ⟨rfl, rfl, List.suffix_refl _⟩
  · simp only [RegisterProfileCallback]
    split_ifs <;> exact ⟨rfl, rfl, List.suffix_refl _⟩
  · exact Frame.refl db
  · exact ⟨rfl, rfl, List.suffix_refl _⟩

theorem closedDrain_frame (db : Database) : Frame db (closedDrain db).1 :=
  ⟨rfl, rfl, List.nil_suffix⟩

theorem ProcessWith_frame (loop : Database → Outcome)
    (h : ∀ d, Frame d (loop d).1) (db : Database) : Frame db (ProcessWith loop db).1 := by
  unfold ProcessWith
  split_ifs
  · exact closedDrain_frame db
  · exact h db

theorem dispatchLoop_frame : ∀ (fuel : Nat) (db : Database), Frame db (dispatchLoop fuel db).1
  | 0, db => Frame.refl db
  | fuel + 1, db => by
    rcases dispatchLoop_cases fuel db with h | ⟨call, rest, hq, _, _, _, h⟩
    · rw [h]; exact Frame.refl db
    · have h1 := (popped_frame db call rest hq).trans
        (runCallback_frame _ (ProcessWith_frame _ (dispatchLoop_frame fuel)) call _)
      rw [h]
      split_ifs
      · exact h1
      · exact h1.trans (dispatchLoop_frame fuel _)

theorem Process_frame (db : Database) : Frame db (Process db).1 :=
  ProcessWith_frame _ (dispatchLoop_frame _) db

/-- The operation body only ever applies `process` to the state it is given. -/
theorem runCallback_congr (p1 p2 : Database → Outcome) (call : Call) (db : Database)
    (h : p1 db = p2 db) : runCallback p1 call db = runCallback p2 call db := by
  unfold runCallback Work_Wait
  cases call.callback <;> simp [h]

/-- Fuel above the queue length is never used up: the result of the dispatch
loop does not depend on it. -/
theorem dispatchLoop_fuel : ∀ (f1 f2 : Nat) (db : Database),
    db.queue.length < f1 → db.queue.length < f2 → dispatchLoop f1 db = dispatchLoop f2 db
  | 0, _, _, h1, _ => absurd h1 (Nat.not_lt_zero _)
  | _ + 1, 0, _, _, h2 => absurd h2 (Nat.not_lt_zero _)
  | n + 1, m + 1, db, h1, h2 => by
    rw [dispatchLoop, dispatchLoop]
    split_ifs with hg
    · split
      · rfl
      · rename_i call rest hq
        rw [hq] at h1 h2
        simp only [List.length_cons, Nat.add_lt_add_iff_right] at h1 h2
        have hP : ProcessWith (dispatchLoop n) { db with queue := rest, locked := call.exclusive }
            = ProcessWith (dispatchLoop m) { db with queue := rest, locked := call.exclusive } := by
          unfold ProcessWith
          rw [dispatchLoop_fuel n m _ h1 h2]
        have hr := runCallback_congr _ _ call _ hP
        have hlen : (runCallback (ProcessWith (dispatchLoop m)) call
            { db with queue := rest, locked := call.exclusive }).1.queue.length ≤ rest.length :=
          (runCallback_frame _ (ProcessWith_frame _ (dispatchLoop_frame m)) call _).length_le
        simp only [hr]
        rw [dispatchLoop_fuel n m _ (lt_of_le_of_lt hlen h1) (lt_of_le_of_lt hlen h2)]
    · rfl

/-- `Process` with any budget above the queue length is `Process`. -/
theorem ProcessWith_fuel (fuel : Nat) (db : Database) (h : db.queue.length < fuel) :
    ProcessWith (dispatchLoop fuel) db = Process db := by
  unfold Process ProcessWith
  rw [dispatchLoop_fuel fuel (db.queue.length + 1) db h (Nat.lt_succ_self _)]

/-! ## The state at every hand-off -/

theorem runCallback_gated (process : Database → Outcome)
    (hp : ∀ d, ∀ ev ∈ (process d).2, ev.gated) (call : Call) (db : Database) :
    ∀ ev ∈ (runCallback process call db).2, ev.gated := by
  unfold runCallback
  cases call.callback
  · simp only [RemoveCallbacks]
    intro ev hev
    split_ifs at hev <;> simp at hev <;> (try rcases hev with h | h) <;> subst_vars <;>
      exact True.intro
  · simp
  · simp only [Work_Wait]
    intro ev hev
    rw [List.mem_append] at hev
    rcases hev with h | h
    · split_ifs at h <;> simp at h
      subst h; exact True.intro
    · exact hp db ev h
  · simp
  · simp only [RegisterTraceCallback]
    intro ev hev
    split_ifs at hev <;> simp at hev <;> rcases hev with h | h <;> subst h <;> exact True.intro
  · simp only [RegisterProfileCallback]
    intro ev hev
    split_ifs at hev <;> simp at hev <;> rcases hev with h | h <;> subst h <;> exact True.intro
  · simp only [SetBusyTimeout]
    intro ev hev
    simp at hev
    subst hev; exact True.intro
  · simp [Statement_Work_Begin]

theorem drainLoop_gated : ∀ (q : List Call) (called : Bool), ∀ ev ∈ (drainLoop q called).1, ev.gated
  | [], _ => by simp [drainLoop]
  | call :: rest, called => by
    intro ev hev
    rw [drainLoop] at hev
    split_ifs at hev
    · simp only [List.mem_cons] at hev
      rcases hev with h | h
      · subst h; exact True.intro
      · exact drainLoop_gated rest true ev h
    · exact drainLoop_gated rest called ev hev

theorem closedDrain_gated (db : Database) : ∀ ev ∈ (closedDrain db).2, ev.gated := by
  intro ev hev
  simp only [closedDrain, List.mem_append] at hev
  rcases hev with h | h
  · exact drainLoop_gated _ _ ev h
  · split_ifs at h <;> simp at h
    subst h; exact True.intro

theorem ProcessWith_gated (loop : Database → Outcome)
    (h : ∀ d, ∀ ev ∈ (loop d).2, ev.gated) (db : Database) :
    ∀ ev ∈ (ProcessWith loop db).2, ev.gated := by
  unfold ProcessWith
  split_ifs
  · exact closedDrain_gated db
  · exact h db

theorem dispatchLoop_gated : ∀ (fuel : Nat) (db : Database),
    ∀ ev ∈ (dispatchLoop fuel db).2, ev.gated
  | 0, db => by simp [dispatchLoop]
  | fuel + 1, db => by
    rcases dispatchLoop_cases fuel db with h | ⟨call, rest, _, ho, _, he, h⟩
    · rw [h]; simp
    · have h0 : (Event.invoke call (popped db call rest)).gated := ⟨ho, rfl, he⟩
      have h1 := runCallback_gated _ (ProcessWith_gated _ (dispatchLoop_gated fuel)) call
        (popped db call rest)
      rw [h]
      intro ev hev
      split_ifs at hev
      · simp only [List.mem_cons] at hev
        rcases hev with e | e
        · subst e; exact h0
        · exact h1 ev e
      · simp only [List.mem_cons, List.mem_append] at hev
        rcases hev with e | e | e
        · subst e; exact h0
        · exact h1 ev e
        · exact dispatchLoop_gated fuel _ ev e

theorem Process_gated (db : Database) : ∀ ev ∈ (Process db).2, ev.gated :=
  ProcessWith_gated _ (dispatchLoop_gated _) db

theorem Schedule_gated (db : Database) (callback : Work_Callback) (baton : Baton)
    (exclusive : Bool) : ∀ ev ∈ (Schedule db callback baton exclusive).2, ev.gated := by
  intro ev hev
  unfold Schedule at hev
  split_ifs at hev with h1 h2 h3
  · simp at hev; subst hev; exact True.intro
  · simp at hev; subst hev; exact True.intro
  · simp at hev
  · simp only [List.mem_cons] at hev
    rcases hev with e | e
    · subst e
      simp only [Bool.or_eq_true, Bool.and_eq_true, Bool.not_eq_true', decide_eq_true_eq,
        not_or, not_and, Bool.not_eq_false] at h3
      refine ⟨h3.1, rfl, ?_⟩
      intro he
      have h4 := h3.2 (Or.inl (Or.inr he))
      show db.pending = 0
      omega
    · exact runCallback_gated _ Process_gated _ _ ev e

/-- The immediate path of `Schedule`: an open connection with `pending == 0`,
or with none of `locked`, `exclusive`, `serialize` set. -/
theorem Schedule_immediate (db : Database) (callback : Work_Callback) (baton : Baton)
    (exclusive : Bool) (ho : db.open_ = true)
    (h : db.pending = 0 ∨ (db.locked = false ∧ exclusive = false ∧ db.serialize = false)) :
    Schedule db callback baton exclusive = dispatchNow db callback baton exclusive := by
  have hq : (!db.open_ || ((db.locked || exclusive || db.serialize) && decide (db.pending > 0)))
      = false := by
    rcases h with h | ⟨h1, h2, h3⟩
    · simp [ho, h]
    · simp [ho, h1, h2, h3]
  have hc : (!db.open_ && db.locked) = false := by simp [ho]
  simp only [Schedule, hc, hq, Bool.false_eq_true, if_false, dispatchNow]

/-- With an exclusive call at the head of the queue and `pending > 0`,
`Process` on an open connection does nothing. -/
theorem Process_blocked (db : Database) (head : Call) (rest : List Call)
    (ho : db.open_ = true) (hq : db.queue = head :: rest) (he : head.exclusive = true)
    (hp : 0 < db.pending) : Process db = (db, []) := by
  have hc : (!db.open_ && db.locked && !db.queue.isEmpty) = false := by simp [ho]
  simp only [Process, ProcessWith, hc, Bool.false_eq_true, if_false]
  rw [dispatchLoop]
  split_ifs
  · rw [hq]
    simp [he, hp]
  · rfl

/-- When the loop condition holds and the head is not held back, the first
event of the dispatch loop is the hand-off of the head. -/
theorem dispatchLoop_head (fuel : Nat) (db : Database) (head : Call) (rest : List Call)
    (ho : db.open_ = true) (hg : db.locked = false ∨ db.pending = 0)
    (hq : db.queue = head :: rest) (hb : head.exclusive = true → db.pending = 0) :
    ∃ tail, (dispatchLoop (fuel + 1) db).2 =
      Event.invoke head (popped db head rest) :: tail := by
  have h1 : (db.open_ && (!db.locked || db.pending == 0) && !db.queue.isEmpty) = true := by
    rcases hg with hg | hg <;> simp [ho, hg, hq]
  have h2 : (head.exclusive && decide (db.pending > 0)) = false := by
    cases he : head.exclusive
    · simp
    · simp [hb he]
  rw [dispatchLoop]
  simp only [h1, if_true]
  rw [hq]
  simp only [h2, Bool.false_eq_true, if_false]
  split_ifs
  · exact ⟨_, rfl⟩
  · exact ⟨_, rfl⟩

/-- With an empty queue `Process` does nothing. -/
theorem Process_empty (db : Database) (hq : db.queue = []) : Process db = (db, []) := by
  have hc : (!db.open_ && db.locked && !db.queue.isEmpty) = false := by simp [hq]
  simp only [Process, ProcessWith, hc, Bool.false_eq_true, if_false]
  rcases dispatchLoop_cases db.queue.length db with h | ⟨call, rest, h, _⟩
  · exact h
  · rw [hq] at h; exact absurd h (by simp)

/-! ## `pending` counts the outstanding statement requests -/

theorem LogTracked_append : ∀ (l1 l2 : List Event) (out : List Call),
    LogTracked out (l1 ++ l2) ↔ LogTracked out l1 ∧ LogTracked (l1.foldl outstandingStep out) l2
  | [], l2, out => by simp [LogTracked]
  | ev :: l1, l2, out => by
    show ev.tracked out ∧ LogTracked (outstandingStep out ev) (l1 ++ l2) ↔ _
    rw [LogTracked_append l1 l2]
    simp only [LogTracked, List.foldl_cons, and_assoc]

theorem inert_log : ∀ (l : List Event) (out : List Call), (∀ ev ∈ l, Event.inert ev = true) →
    LogTracked out l ∧ l.foldl outstandingStep out = out
  | [], _, _ => ⟨trivial, rfl⟩
  | ev :: l, out, h => by
    have h1 : Event.inert ev = true := h ev (List.mem_cons_self _ _)
    have h2 : outstandingStep out ev = out := by
      cases ev <;> first | rfl | (simp [Event.inert] at h1)
    have h3 : ev.tracked out := by
      cases ev <;> first | exact True.intro | (simp [Event.inert] at h1)
    have ih := inert_log l out (fun e he => h e (List.mem_cons_of_mem _ he))
    simp only [LogTracked, List.foldl_cons, h2]
    exact ⟨⟨h3, ih.1⟩, ih.2⟩

theorem Tracked.nil (out : List Call) (db : Database) (h : db.pending = stmtCount out) :
    Tracked out (db, []) :=
  ⟨trivial, h⟩

theorem Tracked.seq {out : List Call} {r1 r2 : Outcome} (h1 : Tracked out r1)
    (h2 : Tracked (r1.2.foldl outstandingStep out) r2) : Tracked out (r2.1, r1.2 ++ r2.2) :=
  ⟨(LogTracked_append _ _ _).2 ⟨h1.1, h2.1⟩, by rw [List.foldl_append]; exact h2.2⟩

/-- An inert prefix does not disturb the tracking. -/
theorem Tracked.after_inert {out : List Call} {r : Outcome} (l : List Event)
    (hl : ∀ ev ∈ l, Event.inert ev = true) (h : Tracked out r) : Tracked out (r.1, l ++ r.2) := by
  have hi := inert_log l out hl
  refine ⟨(LogTracked_append _ _ _).2 ⟨hi.1, by rw [hi.2]; exact h.1⟩, ?_⟩
  rw [List.foldl_append, hi.2]
  exact h.2

/-- A log of inert events leaves the tracking as it is. -/
theorem Tracked.inert_only (out : List Call) (db : Database) (l : List Event)
    (h : db.pending = stmtCount out) (hl : ∀ ev ∈ l, Event.inert ev = true) :
    Tracked out (db, l) := by
  have hi := inert_log l out hl
  exact ⟨hi.1, by rw [hi.2]; exact h⟩

theorem stmtCount_append_one (out : List Call) (c : Call) :
    stmtCount (out ++ [c]) = stmtCount out + if isStatement c then 1 else 0 := by
  simp [stmtCount, List.countP_append, List.countP_cons]

theorem runCallback_tracked (process : Database → Outcome)
    (hp : ∀ out d, d.pending = stmtCount out → Tracked out (process d))
    (call : Call) (db now : Database) (out : List Call) (h : db.pending = stmtCount out) :
    Tracked (outstandingStep out (Event.invoke call now)) (runCallback process call db) := by
  unfold runCallback
  simp only [outstandingStep]
  cases hc : call.callback
  · have hcount : stmtCount (out ++ [call]) = stmtCount out := by
      simp [stmtCount_append_one, isStatement, hc]
    simp only [isAsync, if_true, RemoveCallbacks]
    refine ⟨(inert_log _ _ ?_).1, ?_⟩
    · intro ev hev
      split_ifs at hev <;> simp at hev <;> (try rcases hev with e | e) <;> subst_vars <;> rfl
    · rw [(inert_log _ _ ?_).2]
      · split_ifs <;> simp [hcount, h]
      · intro ev hev
        split_ifs at hev <;> simp at hev <;> (try rcases hev with e | e) <;> subst_vars <;> rfl
  · have hcount : stmtCount (out ++ [call]) = stmtCount out := by
      simp [stmtCount_append_one, isStatement, hc]
    exact Tracked.nil _ _ (by simp [isAsync, hcount, h])
  · simp only [isAsync, Bool.false_eq_true, if_false, Work_Wait]
    refine Tracked.after_inert _ ?_ (hp out db h)
    intro ev hev
    split_ifs at hev <;> simp at hev
    subst hev; rfl
  · have hcount : stmtCount (out ++ [call]) = stmtCount out := by
      simp [stmtCount_append_one, isStatement, hc]
    exact Tracked.nil _ _ (by simp [isAsync, hcount, h])
  · simp only [isAsync, Bool.false_eq_true, if_false, RegisterTraceCallback]
    split_ifs <;> refine Tracked.inert_only out _ _ h ?_ <;> intro ev hev <;>
      simp at hev <;> rcases hev with e | e <;> subst e <;> rfl
  · simp only [isAsync, Bool.false_eq_true, if_false, RegisterProfileCallback]
    split_ifs <;> refine Tracked.inert_only out _ _ h ?_ <;> intro ev hev <;>
      simp at hev <;> rcases hev with e | e <;> subst e <;> rfl
  · simp only [isAsync, Bool.false_eq_true, if_false, SetBusyTimeout]
    refine Tracked.inert_only out _ _ h ?_
    intro ev hev
    simp at hev
    subst hev; rfl
  · have hcount : stmtCount (out ++ [call]) = stmtCount out + 1 := by
      simp [stmtCount_append_one, isStatement, hc]
    exact Tracked.nil _ _ (by simp [isAsync, Statement_Work_Begin, hcount, h])

theorem Tracked.cons_invoke {out : List Call} {r : Outcome} (call : Call) (now : Database)
    (h0 : now.pending = stmtCount out)
    (h : Tracked (outstandingStep out (Event.invoke call now)) r) :
    Tracked out (r.1, Event.invoke call now :: r.2) :=
  ⟨⟨h0, h.1⟩, h.2⟩

theorem Tracked.cons_complete {out : List Call} {r : Outcome} (baton : Baton)
    (h : Tracked (outstandingStep out (Event.complete baton)) r) :
    Tracked out (r.1, Event.complete baton :: r.2) :=
  ⟨⟨True.intro, h.1⟩, h.2⟩

theorem drainLoop_inert : ∀ (q : List Call) (called : Bool),
    ∀ ev ∈ (drainLoop q called).1, Event.inert ev = true
  | [], _ => by simp [drainLoop]
  | call :: rest, called => by
    intro ev hev
    rw [drainLoop] at hev
    split_ifs at hev
    · simp only [List.mem_cons] at hev
      rcases hev with h | h
      · subst h; rfl
      · exact drainLoop_inert rest true ev h
    · exact drainLoop_inert rest called ev hev

theorem closedDrain_tracked (out : List Call) (db : Database) (h : db.pending = stmtCount out) :
    Tracked out (closedDrain db) := by
  refine Tracked.inert_only out _ _ h ?_
  intro ev hev
  simp only [List.mem_append] at hev
  rcases hev with e | e
  · exact drainLoop_inert _ _ ev e
  · split_ifs at e <;> simp at e
    subst e; rfl

theorem ProcessWith_tracked (loop : Database → Outcome)
    (hloop : ∀ out d, d.pending = stmtCount out → Tracked out (loop d))
    (out : List Call) (db : Database) (h : db.pending = stmtCount out) :
    Tracked out (ProcessWith loop db) := by
  unfold ProcessWith
  split_ifs
  · exact closedDrain_tracked out db h
  · exact hloop out db h

theorem dispatchLoop_tracked : ∀ (fuel : Nat) (out : List Call) (db : Database),
    db.pending = stmtCount out → Tracked out (dispatchLoop fuel db)
  | 0, out, db, h => Tracked.nil out db h
  | fuel + 1, out, db, h => by
    rcases dispatchLoop_cases fuel db with e | ⟨call, rest, _, _, _, _, e⟩
    · rw [e]; exact Tracked.nil out db h
    · have hR := runCallback_tracked (ProcessWith (dispatchLoop fuel))
        (fun o d hd => ProcessWith_tracked _ (dispatchLoop_tracked fuel) o d hd)
        call (popped db call rest) (popped db call rest) out h
      rw [e]
      split_ifs
      · exact Tracked.cons_invoke call _ h hR
      · exact Tracked.cons_invoke call _ h
          (Tracked.seq hR (dispatchLoop_tracked fuel _ _ hR.2))

theorem Process_tracked (out : List Call) (db : Database) (h : db.pending = stmtCount out) :
    Tracked out (Process db) :=
  ProcessWith_tracked _ (dispatchLoop_tracked _) out db h

theorem Schedule_tracked (out : List Call) (db : Database) (callback : Work_Callback)
    (baton : Baton) (exclusive : Bool) (h : db.pending = stmtCount out) :
    Tracked out (Schedule db callback baton exclusive) := by
  unfold Schedule
  split_ifs
  · exact Tracked.inert_only out db _ h (by simp [Event.inert])
  · exact Tracked.inert_only out db _ h (by simp [Event.inert])
  · exact Tracked.nil out _ h
  · exact Tracked.cons_invoke _ _ h
      (runCallback_tracked Process Process_tracked _ _ _ out h)

/-- Erasing the request found for a baton removes one statement request from
the count exactly when the request is a statement. -/
theorem stmtCount_eraseP (p : Call → Bool) : ∀ (out : List Call) (c : Call),
    out.find? p = some c →
      stmtCount (out.eraseP p) + (if isStatement c then 1 else 0) = stmtCount out
  | [], _, h => by simp at h
  | a :: out, c, h => by
    by_cases hp : p a = true
    · have hac : a = c := by simpa [List.find?, hp] using h
      subst hac
      simp [List.eraseP_cons, hp, stmtCount, List.countP_cons]
    · have h' : out.find? p = some c := by simpa [List.find?, hp] using h
      have ih := stmtCount_eraseP p out c h'
      simp only [stmtCount] at ih ⊢
      simp only [List.eraseP_cons, hp, Bool.false_eq_true, if_false, List.countP_cons, cond_false]
      omega

theorem isOutstanding_find (hist : List Event) (callback : Work_Callback) (baton : Baton)
    (h : isOutstanding hist callback baton = true) :
    ∃ c, (outstanding hist).find? (fun c => c.baton.id == baton.id) = some c ∧
      c.callback = callback := by
  unfold isOutstanding at h
  split at h
  · rename_i c hc
    exact ⟨c, hc, by simpa using h⟩
  · exact absurd h (by decide)

theorem fireCompletion_inert (baton : Baton) : ∀ ev ∈ fireCompletion baton,
    Event.inert ev = true := by
  intro ev hev
  unfold fireCompletion at hev
  split_ifs at hev <;> simp at hev <;> subst hev <;> rfl

/-- A completion handler of an exclusive operation that then calls `Process`. -/
theorem completion_tracked (out : List Call) (db : Database) (baton : Baton) (c : Call)
    (fired : List Event) (hf : ∀ ev ∈ fired, Event.inert ev = true)
    (hfind : out.find? (fun c => c.baton.id == baton.id) = some c)
    (hc : isStatement c = false) (h : db.pending = stmtCount out) :
    Tracked out ((Process db).1, Event.complete baton :: (fired ++ (Process db).2)) := by
  have hcount := stmtCount_eraseP _ out c hfind
  simp only [hc, Bool.false_eq_true, if_false, Nat.add_zero] at hcount
  exact Tracked.cons_complete baton
    (Tracked.after_inert fired hf (Process_tracked _ db (by
      simp only [outstandingStep]; rw [hcount]; exact h)))

/-- The shape of `Work_AfterClose`: the completion marker, some callback or
event reports, and then either `Process` on a state with the same `pending`,
or nothing more. -/
theorem Work_AfterClose_shape (db : Database) (baton : Baton) :
    ∃ (fired : List Event) (db1 : Database),
      (∀ ev ∈ fired, Event.inert ev = true) ∧ db1.pending = db.pending ∧
      (db1 = db ∨ db1 = { db with open_ := false }) ∧
      (Work_AfterClose db baton =
          ((Process db1).1, Event.complete baton :: (fired ++ (Process db1).2)) ∨
        Work_AfterClose db baton = (db1, Event.complete baton :: fired)) := by
  obtain ⟨d, hd⟩ : ∃ d : Database, d = (if (baton.status != SQLITE_OK) = true then db
      else { db with open_ := false }) := ⟨_, rfl⟩
  obtain ⟨a, ha⟩ : ∃ a : Option Exception, a = (if (baton.status != SQLITE_OK) = true
      then some (batonException baton) else none) := ⟨_, rfl⟩
  obtain ⟨f, hf⟩ : ∃ f : List Event, f = (if baton.callback = true then [Event.call baton a]
      else if (d.open_) = true then [Event.emit "error" a] else []) := ⟨_, rfl⟩
  have hW : Work_AfterClose db baton =
      if (!d.open_) = true then
        ((Process d).1,
          Event.complete baton :: (f ++ Event.emit "close" none :: (Process d).2))
      else (d, Event.complete baton :: f) := by
    subst hd ha hf; rfl
  have hfi : ∀ ev ∈ f, Event.inert ev = true := by
    intro ev hev
    rw [hf] at hev
    split_ifs at hev <;> simp at hev <;> subst hev <;> rfl
  have hdp : d.pending = db.pending ∧ (d = db ∨ d = { db with open_ := false }) := by
    rw [hd]
    split_ifs
    · exact ⟨rfl, Or.inl rfl⟩
    · exact ⟨rfl, Or.inr rfl⟩
  by_cases ho : (!d.open_) = true
  · refine ⟨f ++ [Event.emit "close" none], d, ?_, hdp.1, hdp.2, Or.inl ?_⟩
    · intro ev hev
      rw [List.mem_append] at hev
      rcases hev with e | e
      · exact hfi ev e
      · simp at e; subst e; rfl
    · rw [hW, if_pos ho]
      simp
  · refine ⟨f, d, hfi, hdp.1, hdp.2, Or.inr ?_⟩
    rw [hW, if_neg ho]

theorem Work_AfterClose_tracked (out : List Call) (db : Database) (baton : Baton) (c : Call)
    (hfind : out.find? (fun c => c.baton.id == baton.id) = some c)
    (hc : isStatement c = false) (h : db.pending = stmtCount out) :
    Tracked out (Work_AfterClose db baton) := by
  have hcount := stmtCount_eraseP _ out c hfind
  simp only [hc, Bool.false_eq_true, if_false, Nat.add_zero] at hcount
  obtain ⟨fired, db1, hf, hp, _, e | e⟩ := Work_AfterClose_shape db baton
  · rw [e]
    exact Tracked.cons_complete baton
      (Tracked.after_inert fired hf (Process_tracked _ db1 (by
        simp only [outstandingStep]; rw [hcount, hp]; exact h)))
  · rw [e]
    exact Tracked.cons_complete baton
      (Tracked.inert_only _ db1 fired (by
        simp only [outstandingStep]; rw [hcount, hp]; exact h) hf)

/-! ## Whole executions -/

theorem run_tracked : ∀ (prog : Api) (hist : List Event) (db : Database),
    db.pending = stmtCount (outstanding hist) → Tracked (outstanding hist) (prog.run hist db)
  | Api.skip, _, db, h => Tracked.nil _ db h
  | Api.seq first second, hist, db, h => by
    have h1 := run_tracked first hist db h
    have hout : outstanding (hist ++ (first.run hist db).2) =
        (first.run hist db).2.foldl outstandingStep (outstanding hist) := by
      simp [outstanding, List.foldl_append]
    have h2 := run_tracked second (hist ++ (first.run hist db).2) (first.run hist db).1
      (by rw [hout]; exact h1.2)
    rw [hout] at h2
    exact Tracked.seq h1 h2
  | Api.schedule callback baton exclusive, _, db, h => Schedule_tracked _ db callback baton exclusive h
  | Api.process, _, db, h => Process_tracked _ db h
  | Api.serialize, _, db, h => Process_tracked _ { db with serialize := true } h
  | Api.parallelize, _, db, h => Process_tracked _ { db with serialize := false } h
  | Api.serializeScope scope, hist, db, h => by
    have h1 := run_tracked scope hist { db with serialize := true } h
    exact Tracked.seq h1 (Process_tracked _
      { (scope.run hist { db with serialize := true }).1 with serialize := db.serialize } h1.2)
  | Api.parallelizeScope scope, hist, db, h => by
    have h1 := run_tracked scope hist { db with serialize := false } h
    exact Tracked.seq h1 (Process_tracked _
      { (scope.run hist { db with serialize := false }).1 with serialize := db.serialize } h1.2)
  | Api.afterExec baton, hist, db, h => by
    simp only [Api.run]
    split_ifs with hg
    · obtain ⟨c, hfind, hc⟩ := isOutstanding_find hist _ baton hg
      exact completion_tracked _ db baton c _ (fireCompletion_inert baton) hfind
        (by simp [isStatement, hc]) h
    · exact Tracked.nil _ db h
  | Api.afterLoadExtension baton, hist, db, h => by
    simp only [Api.run]
    split_ifs with hg
    · obtain ⟨c, hfind, hc⟩ := isOutstanding_find hist _ baton hg
      exact completion_tracked _ db baton c _ (fireCompletion_inert baton) hfind
        (by simp [isStatement, hc]) h
    · exact Tracked.nil _ db h
  | Api.afterClose baton, hist, db, h => by
    simp only [Api.run]
    split_ifs with hg
    · obtain ⟨c, hfind, hc⟩ := isOutstanding_find hist _ baton hg
      exact Work_AfterClose_tracked _ db baton c hfind (by simp [isStatement, hc]) h
    · exact Tracked.nil _ db h
  | Api.afterStatement baton, hist, db, h => by
    simp only [Api.run]
    split_ifs with hg
    · obtain ⟨c, hfind, hc⟩ := isOutstanding_find hist _ baton hg
      have hcount := stmtCount_eraseP _ (outstanding hist) c hfind
      simp only [isStatement, hc, beq_self_eq_true, if_true] at hcount
      exact Tracked.cons_complete baton (Process_tracked _ { db with pending := db.pending - 1 }
        (by simp only [outstandingStep]; show db.pending - 1 = _; omega))
    · exact Tracked.nil _ db h

theorem inert_gated (ev : Event) (h : Event.inert ev = true) : ev.gated := by
  cases ev <;> first | exact True.intro | (simp [Event.inert] at h)

theorem run_gated : ∀ (prog : Api) (hist : List Event) (db : Database),
    ∀ ev ∈ (prog.run hist db).2, ev.gated
  | Api.skip, _, _ => by simp [Api.run]
  | Api.seq first second, hist, db => by
    intro ev hev
    simp only [Api.run, List.mem_append] at hev
    rcases hev with e | e
    · exact run_gated first hist db ev e
    · exact run_gated second _ _ ev e
  | Api.schedule callback baton exclusive, _, db => Schedule_gated db callback baton exclusive
  | Api.process, _, db => Process_gated db
  | Api.serialize, _, db => Process_gated _
  | Api.parallelize, _, db => Process_gated _
  | Api.serializeScope scope, hist, db => by
    intro ev hev
    simp only [Api.run, Serialize, List.mem_append] at hev
    rcases hev with e | e
    · exact run_gated scope hist _ ev e
    · exact Process_gated _ ev e
  | Api.parallelizeScope scope, hist, db => by
    intro ev hev
    simp only [Api.run, Parallelize, List.mem_append] at hev
    rcases hev with e | e
    · exact run_gated scope hist _ ev e
    · exact Process_gated _ ev e
  | Api.afterExec baton, hist, db => by
    intro ev hev
    simp only [Api.run] at hev
    split_ifs at hev
    · simp only [Work_AfterExec, List.mem_cons, List.mem_append] at hev
      rcases hev with e | e | e
      · subst e; exact True.intro
      · exact inert_gated ev (fireCompletion_inert baton ev e)
      · exact Process_gated db ev e
    · simp at hev
  | Api.afterLoadExtension baton, hist, db => by
    intro ev hev
    simp only [Api.run] at hev
    split_ifs at hev
    · simp only [Work_AfterLoadExtension, List.mem_cons, List.mem_append] at hev
      rcases hev with e | e | e
      · subst e; exact True.intro
      · exact inert_gated ev (fireCompletion_inert baton ev e)
      · exact Process_gated db ev e
    · simp at hev
  | Api.afterClose baton, hist, db => by
    intro ev hev
    simp only [Api.run] at hev
    split_ifs at hev
    · obtain ⟨fired, db1, hf, _, _, e | e⟩ := Work_AfterClose_shape db baton
      · rw [e] at hev
        simp only [List.mem_cons, List.mem_append] at hev
        rcases hev with e | e | e
        · subst e; exact True.intro
        · exact inert_gated ev (hf ev e)
        · exact Process_gated db1 ev e
      · rw [e] at hev
        simp only [List.mem_cons] at hev
        rcases hev with e | e
        · subst e; exact True.intro
        · exact inert_gated ev (hf ev e)
    · simp at hev
  | Api.afterStatement baton, hist, db => by
    intro ev hev
    simp only [Api.run] at hev
    split_ifs at hev
    · simp only [Statement_Work_After, List.mem_cons] at hev
      rcases hev with e | e
      · subst e; exact True.intro
      · exact Process_gated _ ev e
    · simp at hev

/-! ## `Process` consumes the queue in order -/

theorem invoked_append : ∀ (l1 l2 : List Event), invoked (l1 ++ l2) = invoked l1 ++ invoked l2
  | [], _ => rfl
  | ev :: l1, l2 => by
    cases ev <;> simp [invoked, invoked_append l1 l2]

theorem invoked_of_no_invoke : ∀ (l : List Event), (∀ ev ∈ l, Event.isInvoke ev = false) →
    invoked l = []
  | [], _ => rfl
  | ev :: l, h => by
    have h1 := h ev (List.mem_cons_self _ _)
    have ih := invoked_of_no_invoke l (fun e he => h e (List.mem_cons_of_mem _ he))
    cases ev <;> first | (simp [invoked, ih]; done) | (simp [Event.isInvoke] at h1)

theorem lockedAfter_append (locked : Bool) (l1 l2 : List Event) :
    lockedAfter locked (l1 ++ l2) = lockedAfter (lockedAfter locked l1) l2 := by
  unfold lockedAfter
  rw [invoked_append, List.getLast?_append]
  cases (invoked l2).getLast? <;> cases (invoked l1).getLast? <;> rfl

theorem Fifo.nothing_run (db : Database) : Fifo db (db, []) :=
  ⟨rfl, rfl⟩

theorem Fifo.chain {a : Database} {r1 r2 : Outcome} (h1 : Fifo a r1) (h2 : Fifo r1.1 r2) :
    Fifo a (r2.1, r1.2 ++ r2.2) := by
  refine ⟨?_, ?_⟩
  · show invoked (r1.2 ++ r2.2) ++ r2.1.queue = a.queue
    rw [invoked_append, List.append_assoc, h2.1, h1.1]
  · show r2.1.locked = lockedAfter a.locked (r1.2 ++ r2.2)
    rw [lockedAfter_append, ← h1.2, h2.2]

theorem Fifo.after_handoff {db : Database} {r : Outcome} (call : Call) (rest : List Call)
    (hq : db.queue = call :: rest) (h : Fifo (popped db call rest) r) :
    Fifo db (r.1, Event.invoke call (popped db call rest) :: r.2) := by
  have h0 : Fifo db (popped db call rest, [Event.invoke call (popped db call rest)]) :=
    ⟨by simp [invoked, popped, hq], by simp [lockedAfter, invoked, popped]⟩
  exact Fifo.chain h0 h

/-- Events that are not hand-offs in front of a run do not change what it
consumed. -/
theorem Fifo.after_quiet {db : Database} {r : Outcome} (l : List Event)
    (hl : ∀ ev ∈ l, Event.isInvoke ev = false) (h : Fifo db r) : Fifo db (r.1, l ++ r.2) := by
  have h0 : Fifo db (db, l) := by
    refine ⟨?_, ?_⟩
    · show invoked l ++ db.queue = db.queue
      rw [invoked_of_no_invoke l hl]; rfl
    · show db.locked = lockedAfter db.locked l
      unfold lockedAfter
      rw [invoked_of_no_invoke l hl]; rfl
  exact Fifo.chain h0 h

theorem runCallback_fifo (process : Database → Outcome) (call : Call) (db : Database)
    (hp : Fifo db (process db)) : Fifo db (runCallback process call db) := by
  unfold runCallback
  cases call.callback
  · simp only [RemoveCallbacks]
    split_ifs <;> exact ⟨by simp [invoked], by simp [lockedAfter, invoked]⟩
  · exact Fifo.nothing_run db
  · simp only [Work_Wait]
    refine Fifo.after_quiet _ ?_ hp
    intro ev hev
    split_ifs at hev <;> simp at hev
    subst hev; rfl
  · exact Fifo.nothing_run db
  · simp only [RegisterTraceCallback]
    split_ifs <;> exact ⟨by simp [invoked], by simp [lockedAfter, invoked]⟩
  · simp only [RegisterProfileCallback]
    split_ifs <;> exact ⟨by simp [invoked], by simp [lockedAfter, invoked]⟩
  · exact ⟨by simp [SetBusyTimeout, invoked], by simp [SetBusyTimeout, lockedAfter, invoked]⟩
  · exact ⟨by simp [Statement_Work_Begin, invoked],
      by simp [Statement_Work_Begin, lockedAfter, invoked]⟩

theorem ProcessWith_open (loop : Database → Outcome) (db : Database) (ho : db.open_ = true) :
    ProcessWith loop db = loop db := by
  simp [ProcessWith, ho]

theorem dispatchLoop_fifo : ∀ (fuel : Nat) (db : Database), Fifo db (dispatchLoop fuel db)
  | 0, db => Fifo.nothing_run db
  | fuel + 1, db => by
    rcases dispatchLoop_cases fuel db with e | ⟨call, rest, hq, ho, _, _, e⟩
    · rw [e]; exact Fifo.nothing_run db
    · have hR : Fifo (popped db call rest)
          (runCallback (ProcessWith (dispatchLoop fuel)) call (popped db call rest)) := by
        refine runCallback_fifo _ call _ ?_
        rw [ProcessWith_open (dispatchLoop fuel) (popped db call rest) ho]
        exact dispatchLoop_fifo fuel _
      rw [e]
      split_ifs
      · exact Fifo.after_handoff call rest hq hR
      · exact Fifo.after_handoff call rest hq (Fifo.chain hR (dispatchLoop_fifo fuel _))

theorem Process_fifo (db : Database) (ho : db.open_ = true) : Fifo db (Process db) := by
  unfold Process
  rw [ProcessWith_open _ _ ho]
  exact dispatchLoop_fifo _ db

/-- When something was handed over, `locked` after the log is the flag of the
last call handed over. -/
theorem lockedAfter_last (locked : Bool) (log : List Event) (h : invoked log ≠ []) :
    ∃ c, (invoked log).getLast? = some c ∧ c.exclusive = lockedAfter locked log := by
  unfold lockedAfter
  cases hl : (invoked log).getLast? with
  | none => exact absurd (List.getLast?_eq_none_iff.1 hl) h
  | some c => exact ⟨c, rfl, rfl⟩

theorem dispatchLoop_stopped : ∀ (fuel : Nat) (db : Database), db.open_ = true →
    db.queue.length < fuel → Stopped (dispatchLoop fuel db)
  | 0, _, _, hf => absurd hf (Nat.not_lt_zero _)
  | fuel + 1, db, ho, hf => by
    rcases dispatchLoop_cases fuel db with e | ⟨call, rest, hq, _, _, _, e⟩
    · rw [e]
      cases hq : db.queue with
      | nil => exact Or.inl hq
      | cons head rest =>
        by_cases hp : 0 < db.pending
        · cases hl : db.locked
          · cases he : head.exclusive
            · obtain ⟨tail, ht⟩ := dispatchLoop_head fuel db head rest ho (Or.inl hl) hq
                (fun h => by rw [he] at h; exact absurd h (by decide))
              rw [e] at ht
              exact absurd ht (by simp)
            · exact Or.inr (Or.inr (Or.inl ⟨head, rest, hq, he, hp⟩))
          · exact Or.inr (Or.inl ⟨hl, hp⟩)
        · have hp0 : db.pending = 0 := by omega
          obtain ⟨tail, ht⟩ := dispatchLoop_head fuel db head rest ho (Or.inr hp0) hq
            (fun _ => hp0)
          rw [e] at ht
          exact absurd ht (by simp)
    · have hfp := runCallback_frame _ (ProcessWith_frame _ (dispatchLoop_frame fuel)) call
        (popped db call rest)
      have hfr := (popped_frame db call rest hq).trans hfp
      have hlen : (runCallback (ProcessWith (dispatchLoop fuel)) call
          (popped db call rest)).1.queue.length < fuel := by
        have h1 : (runCallback (ProcessWith (dispatchLoop fuel)) call
            (popped db call rest)).1.queue.length ≤ rest.length := hfp.queue_suffix.length_le
        rw [hq] at hf
        simp only [List.length_cons] at hf
        omega
      have hfifo := dispatchLoop_fifo (fuel + 1) db
      rw [e] at hfifo ⊢
      split_ifs at hfifo ⊢ with hlk
      · obtain ⟨c, hc, hce⟩ := lockedAfter_last db.locked
          (Event.invoke call (popped db call rest) ::
            (runCallback (ProcessWith (dispatchLoop fuel)) call (popped db call rest)).2)
          (by simp [invoked])
        refine Or.inr (Or.inr (Or.inr ⟨c, hc, ?_⟩))
        rw [hce, ← hfifo.2]
        exact hlk
      · have ih := dispatchLoop_stopped fuel _ (hfr.open_eq.trans ho) hlen
        rcases ih with h | h | h | ⟨c, hc, hce⟩
        · exact Or.inl h
        · exact Or.inr (Or.inl h)
        · exact Or.inr (Or.inr (Or.inl h))
        · refine Or.inr (Or.inr (Or.inr ⟨c, ?_, hce⟩))
          show (invoked (Event.invoke call (popped db call rest) :: (_ ++ _))).getLast? = some c
          rw [← List.cons_append, invoked_append, List.getLast?_append, hc]
          rfl

theorem Process_stopped (db : Database) (ho : db.open_ = true) : Stopped (Process db) := by
  unfold Process
  rw [ProcessWith_open _ _ ho]
  exact dispatchLoop_stopped _ db ho (Nat.lt_succ_self _)

/-! ## Bridges: one per kind -/

theorem liveBridges_append (kind : Hook) : ∀ (l1 l2 : List Event),
    liveBridges kind (l1 ++ l2) = liveBridges kind l1 + liveBridges kind l2
  | [], l2 => by simp [liveBridges]
  | ev :: l1, l2 => by
    have ih := liveBridges_append kind l1 l2
    cases ev <;> simp only [List.cons_append, List.append_eq, liveBridges, ih] <;> omega

theorem BridgeOp_live (kind : Hook) (op : BridgeOp) (db : Database) :
    occupied (slot kind db) + liveBridges kind (op.run db).2 =
      occupied (slot kind (op.run db).1) := by
  cases op with
  | register k =>
    cases k <;> cases kind <;>
      simp only [BridgeOp.run, Register, RegisterTraceCallback, RegisterProfileCallback,
        RegisterUpdateCallback] <;>
      split_ifs with h <;>
      simp [slot, occupied, liveBridges] <;>
      simp_all
  | removeCallbacks =>
    cases kind <;>
      simp only [BridgeOp.run, RemoveCallbacks] <;>
      split_ifs with h1 h2 <;>
      simp [slot, occupied, liveBridges] <;>
      simp_all

theorem runBridgeOps_live (kind : Hook) : ∀ (ops : List BridgeOp) (db : Database),
    occupied (slot kind db) + liveBridges kind (runBridgeOps ops db).2 =
      occupied (slot kind (runBridgeOps ops db).1)
  | [], db => by simp [runBridgeOps, liveBridges]
  | op :: rest, db => by
    have h1 := BridgeOp_live kind op db
    have h2 := runBridgeOps_live kind rest (op.run db).1
    simp only [runBridgeOps, liveBridges_append]
    omega

/-! ## Callbacks that call back: link to the event model, and the serialize flag -/

theorem queue_nil_eq (db : Database) (hq : db.queue = []) : { db with queue := [] } = db := by
  cases db
  simp only [Database.mk.injEq, true_and, and_true] at hq ⊢
  exact hq.symm

/-- With callbacks that do not call back, the loop of lines 49-61 is the event
model of it, and a budget above the queue length is enough. -/
theorem quiet_drainLoop (js : Reentrant.Callbacks) (hjs : Reentrant.Quiet js) :
    ∀ (fuel : Nat) (db : Database) (called : Bool), db.queue.length < fuel →
      Reentrant.drainLoop js fuel db called =
        Except.ok (({ db with queue := [] }, (drainLoop db.queue called).1),
          (drainLoop db.queue called).2)
  | 0, _, _, hf => absurd hf (Nat.not_lt_zero _)
  | fuel + 1, db, called, hf => by
    rw [Reentrant.drainLoop]
    cases hq : db.queue with
    | nil =>
      simp only [drainLoop]
      rw [queue_nil_eq db hq]
    | cons call rest =>
      rw [hq] at hf
      simp only [List.length_cons, Nat.add_lt_add_iff_right] at hf
      by_cases hc : call.baton.callback = true
      · have ih := quiet_drainLoop js hjs fuel { db with queue := rest } true hf
        simp only [hc, if_true, hjs.1 call.baton (some closedHandleException) db, hq, ih, drainLoop,
          List.nil_append]
      · have ih := quiet_drainLoop js hjs fuel { db with queue := rest } called hf
        simp only [hc, Bool.false_eq_true, if_false, ih, drainLoop]

theorem quiet_closedDrain (js : Reentrant.Callbacks) (hjs : Reentrant.Quiet js) (fuel : Nat)
    (db : Database) (hf : db.queue.length < fuel) :
    Reentrant.closedDrain js fuel db = Except.ok (closedDrain db) := by
  simp only [Reentrant.closedDrain, quiet_drainLoop js hjs fuel db false hf, closedDrain,
    hjs.2]
  split_ifs <;> simp

theorem quiet_ProcessWith (js : Reentrant.Callbacks) (hjs : Reentrant.Quiet js) (fuel : Nat)
    (gloop : Database → Reentrant.Run) (loop : Database → Outcome) (db : Database)
    (hf : db.queue.length < fuel) (hloop : gloop db = Except.ok (loop db)) :
    Reentrant.ProcessWith js fuel gloop db = Except.ok (ProcessWith loop db) := by
  unfold Reentrant.ProcessWith ProcessWith
  split_ifs
  · exact quiet_closedDrain js hjs fuel db hf
  · exact hloop

theorem quiet_runCallback (js : Reentrant.Callbacks) (hjs : Reentrant.Quiet js)
    (gprocess : Database → Reentrant.Run) (process : Database → Outcome) (call : Call)
    (db : Database) (hp : gprocess db = Except.ok (process db)) :
    Reentrant.runCallback js gprocess call db = Except.ok (runCallback process call db) := by
  unfold Reentrant.runCallback runCallback
  cases call.callback <;> try rfl
  simp only [Reentrant.Work_Wait, Work_Wait, hjs.1 call.baton none db, hp]
  split_ifs <;> simp

theorem quiet_dispatchLoop (js : Reentrant.Callbacks) (hjs : Reentrant.Quiet js) :
    ∀ (fuel : Nat) (db : Database), db.queue.length < fuel →
      Reentrant.dispatchLoop js fuel db = Except.ok (dispatchLoop fuel db)
  | 0, _, hf => absurd hf (Nat.not_lt_zero _)
  | fuel + 1, db, hf => by
    rw [Reentrant.dispatchLoop, dispatchLoop]
    split_ifs with hg
    · cases hq : db.queue with
      | nil => rfl
      | cons call rest =>
        rw [hq] at hf
        simp only [List.length_cons, Nat.add_lt_add_iff_right] at hf
        by_cases hb : (call.exclusive && decide (db.pending > 0)) = true
        · simp only [hb, if_true]
        · have hP := quiet_ProcessWith js hjs fuel (Reentrant.dispatchLoop js fuel)
            (dispatchLoop fuel) { db with queue := rest, locked := call.exclusive } hf
            (quiet_dispatchLoop js hjs fuel _ hf)
          have hR := quiet_runCallback js hjs _ _ call _ hP
          have hlen : (runCallback (ProcessWith (dispatchLoop fuel)) call
              { db with queue := rest, locked := call.exclusive }).1.queue.length < fuel :=
            lt_of_le_of_lt
              (runCallback_frame _ (ProcessWith_frame _ (dispatchLoop_frame fuel)) call _).length_le
              hf
          simp only [hb, Bool.false_eq_true, if_false, hR]
          split_ifs
          · rfl
          · simp only [quiet_dispatchLoop js hjs fuel _ hlen]
    · rfl

/-- With callbacks that do not call back into the database and a budget above
the queue length, `Process` returns, and returns what the event model says. -/
theorem quiet_Process (js : Reentrant.Callbacks) (hjs : Reentrant.Quiet js) (fuel : Nat)
    (db : Database) (hf : db.queue.length < fuel) :
    Reentrant.Process js fuel db = Except.ok (Process db) := by
  unfold Reentrant.Process Process
  refine quiet_ProcessWith js hjs fuel _ _ db hf ?_
  rw [quiet_dispatchLoop js hjs fuel db hf,
    dispatchLoop_fuel fuel (db.queue.length + 1) db hf (Nat.lt_succ_self _)]

/-- C2, as the code has it: in every execution made of `Schedule` and
`Process` calls, serialize/parallelize calls and completion handlers that
starts with `pending = 0` and nothing outstanding (in particular from an open
idle connection), at the instant the operation of a call whose flag is
exclusive is handed over, `open = true`, `locked = true`, `pending = 0`, and no
statement request (the non-exclusive requests counted by `pending`) is
outstanding.  Nothing more is kept apart: `Schedule` hands a request over at
once whenever `pending = 0`, also while an exclusive request is outstanding. -/
theorem exclusive_after_statements (prog : Api) (db : Database) (hp : db.pending = 0)
    (pre post : List Event) (c : Call) (now : Database)
    (hlog : (prog.run [] db).2 = pre ++ Event.invoke c now :: post)
    (hc : c.exclusive = true) :
    now.open_ = true ∧ now.locked = true ∧ now.pending = 0 ∧
      ∀ o ∈ outstanding pre, isStatement o = false := by
  have hg : (Event.invoke c now).gated :=
    run_gated prog [] db _ (by rw [hlog]; simp)
  obtain ⟨go, gl, gp⟩ := hg
  have ht := (run_tracked prog [] db (by simpa [outstanding, stmtCount] using hp)).1
  rw [hlog, LogTracked_append] at ht
  have hcount : now.pending = stmtCount (outstanding pre) := ht.2.1
  rw [gp hc] at hcount
  refine ⟨go, by rw [gl, hc], gp hc, ?_⟩
  intro o ho
  have hz : (outstanding pre).countP isStatement = 0 := hcount.symm
  rw [List.countP_eq_zero] at hz
  simpa using hz o ho

/-- C2 exercised: a statement and an exclusive `exec` are submitted on an open
idle connection; the `exec` is handed over by the completion of the
statement. -/
theorem exclusive_after_statements_witness :
    (popped { idle with queue := [execA] } execA []).pending = 0 ∧
    ∀ o ∈ outstanding [Event.invoke stmtX idle, Event.complete stmtX.baton],
      isStatement o = false :=
  (exclusive_after_statements stmtThenExec idle rfl
    [Event.invoke stmtX idle, Event.complete stmtX.baton] [] execA
    (popped { idle with queue := [execA] } execA []) (by decide) rfl).2.2

/-- C2 as stated fails: two exclusive `exec` requests `A` and `B` submitted
one after the other on an open idle connection are both handed over at once;
`B` is invoked although no completion handler of `A` has run, and both are
outstanding together.  Likewise a statement submitted after `A` is handed over
at once and is outstanding together with `A`. -/
theorem mutual_exclusion_counterexample :
    idle.open_ = true ∧ idle.locked = false ∧ idle.pending = 0 ∧ idle.queue = [] ∧
    ((Api.submissions [execA, execB]).run [] idle).2 =
      [Event.invoke execA lockedIdle, Event.invoke execB lockedIdle] ∧
    outstanding ((Api.submissions [execA, execB]).run [] idle).2 = [execA, execB] ∧
    execA.exclusive = true ∧ execB.exclusive = true ∧ execA.baton.id ≠ execB.baton.id ∧
    ((Api.submissions [execA, stmtX]).run [] idle).2 =
      [Event.invoke execA lockedIdle, Event.invoke stmtX idle] ∧
    outstanding ((Api.submissions [execA, stmtX]).run [] idle).2 = [execA, stmtX] := by
  decide

/-! ## C3: an exclusive request at the head of the queue -/

/-- C3, as the code has it: on an open connection in parallelize mode with
`locked = false`, `pending > 0` and an exclusive request `E` at the head of
the queue, `Schedule` hands over a non-exclusive request `Z` at once, ahead of
`E` (its admission test does not look at the queue).  What is held back is
`E` and whatever is queued behind it: `Process` dispatches nothing while
`pending > 0`, a statement completion that leaves `pending > 0` dispatches
nothing, and the completion that brings `pending` to `0` hands over `E`
first. -/
theorem queued_barrier (db : Database) (E : Call) (rest : List Call) (ho : db.open_ = true)
    (hs : db.serialize = false) (hl : db.locked = false) (hp : 0 < db.pending)
    (hq : db.queue = E :: rest) (hE : E.exclusive = true) :
    (∀ (callback : Work_Callback) (baton : Baton),
      Schedule db callback baton false = dispatchNow db callback baton false) ∧
    Process db = (db, []) ∧
    (∀ (baton : Baton), 1 < db.pending →
      Statement_Work_After db baton =
        ({ db with pending := db.pending - 1 }, [Event.complete baton])) ∧
    (∀ (baton : Baton), db.pending = 1 →
      ∃ tail, (Statement_Work_After db baton).2 =
        Event.complete baton ::
          Event.invoke E (popped { db with pending := 0 } E rest) :: tail) := by
  refine ⟨fun callback baton =>
      Schedule_immediate db callback baton false ho (Or.inr ⟨hl, rfl, hs⟩),
    Process_blocked db E rest ho hq hE hp, ?_, ?_⟩
  · intro baton h1
    have := Process_blocked { db with pending := db.pending - 1 } E rest ho hq hE
      (by show 0 < db.pending - 1; omega)
    simp only [Statement_Work_After, this]
  · intro baton h1
    have hc : (!db.open_ && db.locked && !db.queue.isEmpty) = false := by simp [ho]
    obtain ⟨tail, ht⟩ := dispatchLoop_head db.queue.length { db with pending := db.pending - 1 }
      E rest ho (Or.inl hl) hq (fun _ => by show db.pending - 1 = 0; omega)
    have h0 : db.pending - 1 = 0 := by omega
    rw [h0] at ht
    refine ⟨tail, ?_⟩
    simp only [Statement_Work_After, Process, ProcessWith, hc, Bool.false_eq_true, if_false, h0,
      ht]

/-- C3 exercised: with two statements outstanding and an exclusive `exec`
queued, a third statement is handed over at once. -/
theorem queued_barrier_witness :
    Schedule twoPendingExecQueued stmtZ.callback stmtZ.baton false =
      dispatchNow twoPendingExecQueued stmtZ.callback stmtZ.baton false :=
  (queued_barrier twoPendingExecQueued execA [] rfl rfl rfl (by decide) rfl rfl).1
    stmtZ.callback stmtZ.baton

/-- C3 as stated fails: submitting the statements `X`, `Y` and the exclusive
`E` on an open idle connection gives the state of the claim (`open`,
parallelize mode, `locked = false`, `pending = 2`, `E` at the head of the
queue); the `Schedule` call of the statement `Z` on that state hands `Z` over
at once, while `E` is still in the queue. -/
theorem queued_barrier_counterexample :
    ((Api.submissions [stmtX, stmtY, execA]).run [] idle).1 = twoPendingExecQueued ∧
    twoPendingExecQueued.open_ = true ∧ twoPendingExecQueued.serialize = false ∧
    twoPendingExecQueued.locked = false ∧ 0 < twoPendingExecQueued.pending ∧
    twoPendingExecQueued.queue = [execA] ∧ execA.exclusive = true ∧
    (Schedule twoPendingExecQueued stmtZ.callback stmtZ.baton false).2 =
      [Event.invoke stmtZ twoPendingExecQueued] ∧
    (Schedule twoPendingExecQueued stmtZ.callback stmtZ.baton false).1.queue = [execA] := by
  decide

/-! ## C4: exclusive gating -/

/-- C4: whenever `Schedule` (immediate path) or `Process` (queued call) hands
over the operation of a call whose flag is exclusive, at that moment
`open = true`, `locked = true` and `pending = 0`; hence the assertions on
`locked`, `open` and `pending == 0` at the top of the operation hold.  This
covers every hand-off made during the call, also those made by a `Process`
that `Work_Wait` re-enters. -/
theorem exclusive_gating (db : Database) (callback : Work_Callback) (baton : Baton)
    (exclusive : Bool) :
    (∀ c now, Event.invoke c now ∈ (Schedule db callback baton exclusive).2 →
      c.exclusive = true →
        now.open_ = true ∧ now.locked = true ∧ now.pending = 0 ∧
          Work_asserts c.callback now = true) ∧
    (∀ c now, Event.invoke c now ∈ (Process db).2 → c.exclusive = true →
        now.open_ = true ∧ now.locked = true ∧ now.pending = 0 ∧
          Work_asserts c.callback now = true) := by
  have key : ∀ (c : Call) (now : Database), (Event.invoke c now).gated → c.exclusive = true →
      now.open_ = true ∧ now.locked = true ∧ now.pending = 0 ∧
        Work_asserts c.callback now = true := by
    intro c now hg he
    obtain ⟨ho, hl, hp⟩ := hg
    have hp0 := hp he
    rw [he] at hl
    refine ⟨ho, hl, hp0, ?_⟩
    cases hc : c.callback <;> simp [Work_asserts, ho, hl, hp0]
  exact ⟨fun c now h he => key c now (Schedule_gated db callback baton exclusive _ h) he,
    fun c now h he => key c now (Process_gated db _ h) he⟩

/-- C4 exercised on a queued exclusive `exec` that `Process` dispatches. -/
theorem exclusive_gating_witness :
    Event.invoke execA (popped idleQueuedExec execA []) ∈ (Process idleQueuedExec).2 ∧
    ((popped idleQueuedExec execA []).open_ = true ∧
      (popped idleQueuedExec execA []).locked = true ∧
      (popped idleQueuedExec execA []).pending = 0 ∧
      Work_asserts execA.callback (popped idleQueuedExec execA []) = true) :=
  ⟨by decide,
    (exclusive_gating idleQueuedExec Work_Callback.Work_BeginExec batonA true).2
      execA (popped idleQueuedExec execA []) (by decide) rfl⟩

/-! ## C5: permanent closure -/

theorem drainLoop_eq : ∀ (q : List Call) (called : Bool),
    drainLoop q called =
      ((q.filter (fun c => c.baton.callback)).map
          (fun c => Event.call c.baton (some closedHandleException)),
        called || q.any (fun c => c.baton.callback))
  | [], called => by simp [drainLoop]
  | call :: rest, called => by
    rw [drainLoop]
    split_ifs with h
    · simp [drainLoop_eq rest true, h]
    · simp [drainLoop_eq rest called, h]

/-- In the event model, on a state with `open = false`, `locked = true` and a
non-empty queue, `Process` empties the queue and calls the callbacks in queue
order, or emits one "error" event when there is none. -/
theorem Process_drains_closed (db : Database) (ho : db.open_ = false) (hl : db.locked = true)
    (hq : db.queue ≠ []) :
    Process db =
      ({ db with queue := [] },
        (db.queue.filter (fun c => c.baton.callback)).map
            (fun c => Event.call c.baton (some closedHandleException)) ++
          (if db.queue.any (fun c => c.baton.callback) then []
           else [Event.emit "error" (some closedHandleException)])) := by
  have hc : (!db.open_ && db.locked && !db.queue.isEmpty) = true := by
    cases hqq : db.queue with
    | nil => exact absurd hqq hq
    | cons a l => simp [ho, hl]
  simp only [Process, ProcessWith, hc, if_true, closedDrain, drainLoop_eq, Bool.false_or]
  cases db.queue.any (fun c => c.baton.callback) <;> simp

/-- A callback that calls `db.serialize()` while the queue of a closed
connection is drained makes `Process` run again with the same call still at
the front; that `Process` empties the queue, and the `queue.pop()` of the first
one then finds the queue empty. -/
theorem drain_reentered :
    Reentrant.Process jsSerializeOnce 3 closedQueued = Except.error Reentrant.Halt.undefined :=
  rfl

/-- C6, as the code has it: on a state with `open = false`, `locked = true` and
a non-empty queue, provided the callbacks of the queued requests and the
listeners of the "error" event do not call back into the database object,
`Process` returns with the queue empty and
nothing else touched, hands over no operation, and delivers the "closed"
(`SQLITE_MISUSE`) failure exactly once to each queued request that carries a
callback, in queue order; requests without a callback receive nothing, unless
no request at all carries one, in which case exactly one generic "error" event
is emitted and no callback is called. -/
theorem closed_drain (js : Reentrant.Callbacks) (hjs : Reentrant.Quiet js) (fuel : Nat)
    (db : Database) (hf : db.queue.length < fuel) (ho : db.open_ = false)
    (hl : db.locked = true) (hq : db.queue ≠ []) :
    Reentrant.Process js fuel db =
      Except.ok ({ db with queue := [] },
        (db.queue.filter (fun c => c.baton.callback)).map
            (fun c => Event.call c.baton (some closedHandleException)) ++
          (if db.queue.any (fun c => c.baton.callback) then []
           else [Event.emit "error" (some closedHandleException)])) ∧
    closedHandleException.errno = SQLITE_MISUSE := by
  rw [quiet_Process js hjs fuel db hf, Process_drains_closed db ho hl hq]
  exact ⟨rfl, rfl⟩

/-- C6 exercised on a closed connection whose queue holds one request with a
callback and one without, the callback doing nothing. -/
theorem closed_drain_witness :
    Reentrant.Process jsNothing 3 closedQueued =
      Except.ok ({ closedQueued with queue := [] },
        (closedQueued.queue.filter (fun c => c.baton.callback)).map
            (fun c => Event.call c.baton (some closedHandleException)) ++
          (if closedQueued.queue.any (fun c => c.baton.callback) then []
           else [Event.emit "error" (some closedHandleException)])) ∧
    closedHandleException.errno = SQLITE_MISUSE :=
  closed_drain jsNothing ⟨fun _ _ _ => rfl, fun _ _ _ => rfl⟩ 3 closedQueued (by decide) rfl rfl
    (by decide)

/-- C6 as stated fails: with two requests queued, one with a callback (which
does nothing) and one without, `Process` delivers a single failure, to the
first; the second request receives nothing and no generic "error" event is
emitted, so neither "one failure to each of the n requests" nor "one generic
notification" describes the outcome. -/
theorem closed_drain_counterexample :
    closedQueued.open_ = false ∧ closedQueued.locked = true ∧
    closedQueued.queue.length = 2 ∧
    Reentrant.Process jsNothing 3 closedQueued =
      Except.ok ({ closedQueued with queue := [] },
        [Event.call batonA (some closedHandleException)]) ∧
    ¬([Event.call batonA (some closedHandleException)] =
          closedQueued.queue.map (fun c => Event.call c.baton (some closedHandleException)) ∨
      (closedQueued.queue.all (fun c => !c.baton.callback) = true ∧
        [Event.call batonA (some closedHandleException)] =
          [Event.emit "error" (some closedHandleException)])) := by
  refine ⟨rfl, rfl, rfl, rfl, ?_⟩
  decide

/-! ## C7: submissions after a failed open -/

/-- C9, as the code has it: in serialize mode `Schedule(r, false)` and
`Schedule(r, true)` take the same decision.  When the request is rejected or
queued (the connection is not open, or `pending > 0`) the two calls have the
very same outcome, the queued flag being `true` in both; when it is dispatched
at once (`open` and `pending == 0`) both hand the operation over from a state
that differs only in `locked`, which is the request's own flag and not
`true`. -/
theorem serialize_admission (db : Database) (callback : Work_Callback) (baton : Baton)
    (hs : db.serialize = true) :
    (¬(db.open_ = true ∧ db.pending = 0) →
      Schedule db callback baton false = Schedule db callback baton true) ∧
    (db.open_ = true ∧ db.pending = 0 →
      Schedule db callback baton false = dispatchNow db callback baton false ∧
      Schedule db callback baton true = dispatchNow db callback baton true) := by
  constructor
  · intro h
    have hq : db.open_ = false ∨ 0 < db.pending := by
      cases ho : db.open_
      · exact Or.inl rfl
      · right
        have : db.pending ≠ 0 := fun hp => h ⟨ho, hp⟩
        omega
    rcases hq with ho | hp
    · simp [Schedule, ho, hs]
    · simp [Schedule, hs, hp]
  · rintro ⟨ho, hp⟩
    exact ⟨Schedule_immediate db callback baton false ho (Or.inl hp),
      Schedule_immediate db callback baton true ho (Or.inl hp)⟩

/-- C9 exercised on an open idle connection in serialize mode. -/
theorem serialize_admission_witness :
    Schedule serializedIdle Work_Callback.Work_BeginExec batonA false =
      dispatchNow serializedIdle Work_Callback.Work_BeginExec batonA false ∧
    Schedule serializedIdle Work_Callback.Work_BeginExec batonA true =
      dispatchNow serializedIdle Work_Callback.Work_BeginExec batonA true :=
  (serialize_admission serializedIdle Work_Callback.Work_BeginExec batonA rfl).2 ⟨rfl, rfl⟩

/-- C9 as stated fails: on an open idle connection in serialize mode the same
request leaves `locked = false` when submitted as non-exclusive and
`locked = true` when submitted as exclusive. -/
theorem serialize_admission_counterexample :
    serializedIdle.serialize = true ∧
    (Schedule serializedIdle Work_Callback.SetBusyTimeout batonN false).1.locked = false ∧
    (Schedule serializedIdle Work_Callback.SetBusyTimeout batonN true).1.locked = true ∧
    (Schedule serializedIdle Work_Callback.SetBusyTimeout batonN false).1 ≠
      (Schedule serializedIdle Work_Callback.SetBusyTimeout batonN true).1 := by
  refine ⟨rfl, rfl, rfl, ?_⟩
  decide

/-! ## C10: serialize and parallelize scopes -/

/-- C12: for each hook kind the register operation (`RegisterTraceCallback`,
`RegisterProfileCallback`, `RegisterUpdateCallback`) toggles the slot of that
kind: on an empty slot it creates one bridge, installs the engine hook and
fills the slot; on a filled slot it removes the hook, finishes the bridge and
empties the slot.  Registering twice in a row gives back the state it started
from (from an empty slot: as many bridges finished as created), the slots of
the other kinds are never touched, and over any sequence of register
operations and `RemoveCallbacks` the bridges of a kind created and not yet
finished, counted with the one in the slot at the start, are the one in the
slot at the end: never more than one. -/
theorem bridge_toggle (db : Database) (kind : Hook) :
    (slot kind db = false →
      Register kind db =
        (setSlot kind true db, [Event.bridge_new kind, Event.hook kind true])) ∧
    (slot kind db = true →
      Register kind db =
        (setSlot kind false db, [Event.hook kind false, Event.bridge_finish kind])) ∧
    (Register kind (Register kind db).1).1 = db ∧
    (slot kind db = false →
      liveBridges kind ((Register kind db).2 ++ (Register kind (Register kind db).1).2) = 0) ∧
    (∀ other : Hook, other ≠ kind → slot other (Register kind db).1 = slot other db) ∧
    (∀ (ops : List BridgeOp) (k : Hook),
      occupied (slot k db) + liveBridges k (runBridgeOps ops db).2 =
        occupied (slot k (runBridgeOps ops db).1) ∧
      occupied (slot k (runBridgeOps ops db).1) ≤ 1) := by
  refine ⟨?_, ?_, ?_, ?_, ?_, ?_⟩
  · intro h
    cases kind <;> simp only [slot] at h <;>
      simp [Register, RegisterTraceCallback, RegisterProfileCallback, RegisterUpdateCallback,
        setSlot, h]
  · intro h
    cases kind <;> simp only [slot] at h <;>
      simp [Register, RegisterTraceCallback, RegisterProfileCallback, RegisterUpdateCallback,
        setSlot, h]
  · obtain ⟨o, l, p, s, q, t, pr, u⟩ := db
    cases kind
    · cases t <;> rfl
    · cases pr <;> rfl
    · cases u <;> rfl
  · intro h
    have h1 := runBridgeOps_live kind [BridgeOp.register kind, BridgeOp.register kind] db
    have h2 : (runBridgeOps [BridgeOp.register kind, BridgeOp.register kind] db) =
        ((Register kind (Register kind db).1).1,
          (Register kind db).2 ++ ((Register kind (Register kind db).1).2 ++ [])) := rfl
    rw [h2] at h1
    simp only [List.append_nil] at h1
    have h3 : (Register kind (Register kind db).1).1 = db := by
      obtain ⟨o, l, p, s, q, t, pr, u⟩ := db
      cases kind
      · cases t <;> rfl
      · cases pr <;> rfl
      · cases u <;> rfl
    rw [h3] at h1
    omega
  · intro other hne
    cases kind <;> cases other <;>
      first
      | exact absurd rfl hne
      | (simp only [Register, RegisterTraceCallback, RegisterProfileCallback,
          RegisterUpdateCallback]
         split_ifs <;> rfl)
  · intro ops k
    refine ⟨runBridgeOps_live k ops db, ?_⟩
    unfold occupied
    split_ifs <;> decide

/-- C12 exercised: `configure("trace")` twice on a connection without bridges
creates one bridge and finishes it, and the slot is empty again. -/
theorem bridge_toggle_witness :
    Register Hook.trace idle =
      (setSlot Hook.trace true idle, [Event.bridge_new Hook.trace, Event.hook Hook.trace true]) ∧
    Register Hook.trace (setSlot Hook.trace true idle) =
      (setSlot Hook.trace false (setSlot Hook.trace true idle),
        [Event.hook Hook.trace false, Event.bridge_finish Hook.trace]) :=
  ⟨(bridge_toggle idle Hook.trace).1 rfl,
    (bridge_toggle (setSlot Hook.trace true idle) Hook.trace).2.1 rfl⟩

/-! ## C13: `Process` consumes the queue in order -/

/-- With the connection neither open nor locked, `Process` does nothing,
whatever the callbacks would do. -/
theorem Process_idle_closed (js : Reentrant.Callbacks) (fuel : Nat) (db : Database)
    (ho : db.open_ = false) (hl : db.locked = false) :
    Reentrant.Process js (fuel + 1) db = Except.ok (db, []) := by
  have hc : (!db.open_ && db.locked && !db.queue.isEmpty) = false := by simp [hl]
  have hg : (db.open_ && (!db.locked || db.pending == 0) && !db.queue.isEmpty) = false := by
    simp [ho]
  simp only [Reentrant.Process, Reentrant.ProcessWith, hc, Bool.false_eq_true, if_false]
  rw [Reentrant.dispatchLoop]
  simp only [hg, Bool.false_eq_true, if_false]

/-- C13, as the code has it: on a state with `open = true` and queue `q`,
provided the callbacks that `Process` runs (those of dispatched `wait`
requests) do not call back into the database object, `Process` returns, and the
calls whose operation it hands over, in the order of the hand-offs, followed by
the queue it leaves, are exactly `q`: a prefix of `q` is dispatched, each call
once and in queue order, and the rest stays queued in order.  It ends only with
the queue empty, or `locked` with `pending > 0`, or an exclusive head while
`pending > 0`, or with an exclusive call as the last one handed over.  With
`open = false` and `locked = false` it changes nothing, whatever the callbacks
do. -/
theorem fifo_consumption (js : Reentrant.Callbacks) (fuel : Nat) (db : Database) :
    (Reentrant.Quiet js → db.queue.length < fuel → db.open_ = true →
      ∃ r, Reentrant.Process js fuel db = Except.ok r ∧
        invoked r.2 ++ r.1.queue = db.queue ∧
        (r.1.queue = [] ∨
          (r.1.locked = true ∧ 0 < r.1.pending) ∨
          (∃ head rest, r.1.queue = head :: rest ∧ head.exclusive = true ∧ 0 < r.1.pending) ∨
          (∃ c, (invoked r.2).getLast? = some c ∧ c.exclusive = true))) ∧
    (db.open_ = false → db.locked = false →
      Reentrant.Process js (fuel + 1) db = Except.ok (db, [])) := by
  constructor
  · intro hjs hf ho
    exact ⟨Process db, quiet_Process js hjs fuel db hf, (Process_fifo db ho).1,
      Process_stopped db ho⟩
  · intro ho hl
    exact Process_idle_closed js fuel db ho hl

/-- C13 exercised on an open connection with a `wait`, a statement and an
exclusive `exec` queued, the callback of the `wait` doing nothing: the `wait`
and the statement are handed over, the `exec` stays queued behind the
outstanding statement. -/
theorem fifo_consumption_witness :
    ∃ r, Reentrant.Process jsNothing 4 waitStmtExecQueued = Except.ok r ∧
      invoked r.2 ++ r.1.queue = waitStmtExecQueued.queue ∧
      (r.1.queue = [] ∨
        (r.1.locked = true ∧ 0 < r.1.pending) ∨
        (∃ head rest, r.1.queue = head :: rest ∧ head.exclusive = true ∧ 0 < r.1.pending) ∨
        (∃ c, (invoked r.2).getLast? = some c ∧ c.exclusive = true)) :=
  (fifo_consumption jsNothing 4 waitStmtExecQueued).1 ⟨fun _ _ _ => rfl, fun _ _ _ => rfl⟩
    (by decide) rfl

/-- C13 as stated fails: on an open connection with an exclusive request
outstanding, `pending = 0` and `q = [wait]` (the state reached when a
statement, an `exec` and the `wait` are submitted and the statement completes),
`Process` dispatches the `wait`, whose callback calls `db.exec(B)`; `Schedule`
hands `B` over at once, inside the same `Process` call.  The operations invoked
are those of the `wait` and of `B`, which is not a prefix of `q`, and together
with the remaining queue they are not `q`. -/
theorem fifo_consumption_counterexample :
    (reachLockedWaitQueued.run [] idle).1 = lockedWaitQueued ∧
    lockedWaitQueued.open_ = true ∧ lockedWaitQueued.queue = [waitA] ∧
    Reentrant.Process jsExec 3 lockedWaitQueued =
      Except.ok (lockedIdle,
        [Event.invoke waitA lockedIdle, Event.call batonA none,
          Event.invoke execB lockedIdle]) ∧
    invoked [Event.invoke waitA lockedIdle, Event.call batonA none,
        Event.invoke execB lockedIdle] = [waitA, execB] ∧
    ¬([waitA, execB] <+: lockedWaitQueued.queue) ∧
    [waitA, execB] ++ lockedIdle.queue ≠ lockedWaitQueued.queue := by
  refine ⟨by decide, rfl, rfl, rfl, rfl, ?_, ?_⟩ <;> decide

end node_sqlite3
